import Mathlib

/-!
Verification development for the diff-position resolution and issue-mapping
engine of the pr-review repository.  The Go sources (router/handler.go and
lib/*.go) are shallowly embedded: Go strings become Lean `String`, Go `int`
becomes `Int`, Go `map[int]...` becomes an association list with
insert-overwrite semantics, and fallible Go returns `(T, bool)` become
`Option T`.  All definitions are executable.
-/

set_option autoImplicit false

namespace PrReview

/-! ### Go string primitives

Models of the `strings`/`strconv` standard-library functions used by the
engine.  `goIsSpace` covers the Latin-1 range of Go's `unicode.IsSpace`
(the higher Unicode space code points never occur in the engine's inputs). -/

def goIsSpace (c : Char) : Bool :=
  c = ' ' || c = '\t' || c = '\n' || c = '\x0B' || c = '\x0C' || c = '\r' ||
    c = '\x85' || c = '\xA0'

def goTrimSpace (s : String) : String :=
  String.mk (((s.data.dropWhile goIsSpace).reverse.dropWhile goIsSpace).reverse)

/-- Model of `strings.Trim`: remove any characters of the cutset from both ends. -/
def goTrim (s : String) (cutset : List Char) : String :=
  String.mk (((s.data.dropWhile (cutset.contains ·)).reverse.dropWhile
    (cutset.contains ·)).reverse)

/-- Model of `strings.HasPrefix`. -/
def goStartsWith (s p : String) : Bool := p.data.isPrefixOf s.data

/-- Model of `strings.TrimPrefix`. -/
def goTrimLeading (s p : String) : String :=
  if goStartsWith s p then String.mk (s.data.drop p.data.length) else s

def subSearch (sub : List Char) : List Char → Bool
  | [] => sub.isEmpty
  | c :: rest => sub.isPrefixOf (c :: rest) || subSearch sub rest

/-- Model of `strings.Contains`. -/
def goContains (s sub : String) : Bool := subSearch sub.data s.data

def splitCharAux (sep : Char) : List Char → List Char → List String
  | acc, [] => [String.mk acc.reverse]
  | acc, c :: rest =>
    if c = sep then String.mk acc.reverse :: splitCharAux sep [] rest
    else splitCharAux sep (c :: acc) rest

/-- Model of `strings.Split` with a one-character separator (the only shape
the engine uses); empty pieces are kept, and the empty string yields one
empty piece, as in Go. -/
def goSplitChar (s : String) (sep : Char) : List String := splitCharAux sep [] s.data

/-- Model of `strings.SplitN(s, sep, 2)[0]` for a one-character separator. -/
def takeUntilChar (s : String) (sep : Char) : String :=
  String.mk (s.data.takeWhile (· ≠ sep))

/-- Model of `strings.SplitN` with limit 2 and a one-character separator:
one piece when the separator is absent, otherwise exactly two. -/
def splitN2Char (s : String) (sep : Char) : List String :=
  if s.data.contains sep then
    [String.mk (s.data.takeWhile (· ≠ sep)),
     String.mk ((s.data.dropWhile (· ≠ sep)).drop 1)]
  else [s]

def fieldsAux : List Char → List Char → List String
  | acc, [] => if acc.isEmpty then [] else [String.mk acc.reverse]
  | acc, c :: rest =>
    if goIsSpace c then
      if acc.isEmpty then fieldsAux [] rest
      else String.mk acc.reverse :: fieldsAux [] rest
    else fieldsAux (c :: acc) rest

/-- Model of `strings.Fields`: maximal runs of non-space characters. -/
def goFields (s : String) : List String := fieldsAux [] s.data

/-- Model of `strings.Join`. -/
def goJoin (parts : List String) (sep : String) : String :=
  match parts with
  | [] => ""
  | p :: rest => rest.foldl (fun acc q => acc ++ sep ++ q) p

def replaceAllAux (old new : List Char) : Nat → List Char → List Char
  | 0, l => l
  | _ + 1, [] => []
  | fuel + 1, c :: rest =>
    if old.isPrefixOf (c :: rest) && !old.isEmpty then
      new ++ replaceAllAux old new fuel (rest.drop (old.length - 1))
    else
      c :: replaceAllAux old new fuel rest

/-- Model of `strings.ReplaceAll` (for the non-empty patterns the engine
uses; Go's empty-pattern interleaving case never arises here).  The fuel
argument only makes the recursion structural; every step consumes at least
one character, so fuel equal to the string length is never exhausted. -/
def goReplaceAll (s old new : String) : String :=
  String.mk (replaceAllAux old.data new.data s.data.length s.data)

def digitsVal (l : List Char) : Option Nat :=
  if l.isEmpty then none
  else if l.all (fun c => c.isDigit) then
    some (l.foldl (fun n c => n * 10 + (c.toNat - 48)) 0)
  else none

/-- Model of `strconv.Atoi`: optional sign followed by at least one digit
(the engine's inputs stay far below the 64-bit overflow bound, which is
therefore not modelled). -/
def goAtoi (s : String) : Option Int :=
  match s.data with
  | '+' :: rest => (digitsVal rest).map Int.ofNat
  | '-' :: rest => (digitsVal rest).map (fun n => -(n : Int))
  | l => (digitsVal l).map Int.ofNat

/-! ### Association lists

Go's `map` types are modelled as association lists with insert-overwrite
semantics; lookup returns the first (unique) entry for a key. -/

def alookup {α β : Type} [DecidableEq α] : List (α × β) → α → Option β
  | [], _ => none
  | (k', v) :: rest, k => if k' = k then some v else alookup rest k

def ainsert {α β : Type} [DecidableEq α] : List (α × β) → α → β → List (α × β)
  | [], k, v => [(k, v)]
  | (k', v') :: rest, k, v =>
    if k' = k then (k, v) :: rest else (k', v') :: ainsert rest k v

/-! ### Data model (router/handler.go) -/

/-- One physical diff-hunk line (`diffLineInfo` in handler.go).  The Go
field `Type` ("+", "-", or " ") is named `Kind` here because `Type` is a
Lean keyword. -/
structure diffLineInfo where
  Position : Int
  Content : String
  Kind : String
deriving DecidableEq, Repr, Inhabited

/-- Per-file index (`diffPositionLines` in handler.go): old-line-number and
new-line-number maps. -/
structure diffPositionLines where
  Old : List (Int × diffLineInfo)
  New : List (Int × diffLineInfo)
deriving DecidableEq, Repr, Inhabited

/-- One extracted issue (`reviewIssue` in handler.go). -/
structure reviewIssue where
  File : String
  Side : String
  OldLine : Int
  NewLine : Int
  Code : String
  Severity : String
  Category : String
  Problem : String
  Suggestion : String
deriving DecidableEq, Repr, Inhabited

/-- Existing inline comment (`lib.Comment`); only the two fields consulted
by the engine's deduplication are modelled. -/
structure Comment where
  Path : String
  Line : Int
deriving DecidableEq, Repr

/-- Provider type constants from `lib`. -/
def ProviderTypeGitHub : String := "github"

def ProviderTypeGitLab : String := "gitlab"

/-! ### Issue extractor (parseIssuesFromReview and helpers) -/

def splitTableRow (line : String) : List String :=
  ((goSplitChar line '|').map goTrimSpace).filter (fun c => c ≠ "")

def parseLineNumber (input : String) : Int :=
  let trimmed := goTrimSpace (goTrim input ['\x60', ' '])
  if trimmed = "" ∨ trimmed = "-" then 0
  else
    match goAtoi trimmed with
    | none => 0
    | some value => if value ≤ 0 then 0 else value

/-- Model of `parseFileLine`; the Go `(file, line, side, ok)` return becomes
an `Option` triple. -/
def parseFileLine (input : String) : Option (String × Int × String) :=
  let trimmed := goTrimSpace input
  let sideTrimmed :=
    if goStartsWith trimmed "+" then
      ("RIGHT", goTrimSpace (goTrimLeading trimmed "+"))
    else if goStartsWith trimmed "-" then
      ("LEFT", goTrimSpace (goTrimLeading trimmed "-"))
    else ("", trimmed)
  match splitN2Char sideTrimmed.2 ':' with
  | [filePart, linePart] =>
    let file := goTrim filePart ['\x60', ' ']
    let lineStr := goTrim linePart ['\x60', ' ']
    (match goAtoi lineStr with
     | none => none
     | some lineNum =>
       if lineNum ≤ 0 then none else some (file, lineNum, sideTrimmed.1))
  | _ => none

def cellAt (cells : List String) (i : Nat) : String := cells.getD i ""

/-- One pass of the extractor loop body for a single report line. -/
def parseIssueLine (issues : List reviewIssue) (line : String) : List reviewIssue :=
  let normalized := goReplaceAll line "｜" "|"
  if !(goContains normalized "|") then issues
  else
    let cells := splitTableRow normalized
    if cells.length < 5 then issues
    else if goContains (cellAt cells 0) "文件名" || goContains (cellAt cells 0) "---" then
      issues
    else if cells.length ≥ 6 then
      let file := goTrim (cellAt cells 0) ['\x60', ' ']
      let oldLine := parseLineNumber (cellAt cells 1)
      let newLine := parseLineNumber (cellAt cells 2)
      if file = "" ∨ (oldLine = 0 ∧ newLine = 0) then issues
      else
        let sideCodeIdx :=
          if cells.length ≥ 9 then
            (goTrimSpace (cellAt cells 3), goTrim (cellAt cells 4) ['\x60', ' '], 5)
          else if cells.length ≥ 8 then
            ("", goTrim (cellAt cells 3) ['\x60', ' '], 4)
          else ("", "", 3)
        let severityIndex := sideCodeIdx.2.2
        issues ++ [{
          File := file
          Side := sideCodeIdx.1
          OldLine := oldLine
          NewLine := newLine
          Code := sideCodeIdx.2.1
          Severity := goTrimSpace (cellAt cells severityIndex)
          Category := goTrimSpace (cellAt cells (severityIndex + 1))
          Problem := goTrimSpace (cellAt cells (severityIndex + 2))
          Suggestion :=
            if cells.length > severityIndex + 3 then
              goTrimSpace (cellAt cells (severityIndex + 3))
            else "" }]
    else
      match parseFileLine (cellAt cells 0) with
      | none => issues
      | some (file, lineNum, side) =>
        issues ++ [{
          File := file
          Side := side
          OldLine := 0
          NewLine := lineNum
          Code := ""
          Severity := goTrimSpace (cellAt cells 1)
          Category := goTrimSpace (cellAt cells 2)
          Problem := goTrimSpace (cellAt cells 3)
          Suggestion := goTrimSpace (cellAt cells 4) }]

def parseIssuesFromReview (content : String) : List reviewIssue :=
  (goSplitChar content '\n').foldl parseIssueLine []

/-! ### Diff position indexer (buildDiffPositionMap and helpers) -/

def parseNewHunkStart (hunkLine : String) : Int :=
  match goSplitChar hunkLine ' ' with
  | _ :: _ :: part2 :: _ =>
    let newPart := takeUntilChar (goTrimLeading part2 "+") ','
    (match goAtoi newPart with
     | none => 0
     | some n => n)
  | _ => 0

def parseOldHunkStart (hunkLine : String) : Int :=
  match goSplitChar hunkLine ' ' with
  | _ :: part1 :: _ =>
    let oldPart := takeUntilChar (goTrimLeading part1 "-") ','
    (match goAtoi oldPart with
     | none => 0
     | some n => n)
  | _ => 0

/-- The mutable locals of the `buildDiffPositionMap` scan loop. -/
structure ScanState where
  lineMap : List (String × diffPositionLines)
  currentFile : String
  oldLine : Int
  newLine : Int
  inPatch : Bool
  inHunk : Bool
  position : Int
deriving DecidableEq, Repr

def initScanState : ScanState :=
  { lineMap := [], currentFile := "", oldLine := 0, newLine := 0,
    inPatch := false, inHunk := false, position := 0 }

/-- Apply an update to the index of one file (the Go nested-map assignment
`lineMap[currentFile].New[...] = ...`).  During the scan the current file is
always registered (proved for claim C9), so the missing-key case below is
unreachable; Go would raise a nil-map write there. -/
def updateFileLines (m : List (String × diffPositionLines)) (file : String)
    (f : diffPositionLines → diffPositionLines) : List (String × diffPositionLines) :=
  match m with
  | [] => []
  | (k, v) :: rest =>
    if k = file then (k, f v) :: rest else (k, v) :: updateFileLines rest file f

/-- The per-file state reset performed at a `diff --git` header or a
non-`b/` `+++` header. -/
def fileHeaderReset (s : ScanState) : ScanState :=
  { s with
    currentFile := "", oldLine := 0, newLine := 0,
    inPatch := false, inHunk := false, position := 0 }

/-- Register an empty index for a freshly named file unless one exists
(or the trimmed name is empty). -/
def registerFile (m : List (String × diffPositionLines)) (currentFile : String) :
    List (String × diffPositionLines) :=
  if currentFile ≠ "" then
    match alookup m currentFile with
    | some _ => m
    | none => ainsert m currentFile ⟨[], []⟩
  else m

/-- The `+++ b/` branch of the scan loop. -/
def fileHeaderStep (s : ScanState) (line : String) : ScanState :=
  { lineMap := registerFile s.lineMap (goTrimSpace (goTrimLeading line "+++ b/")),
    currentFile := goTrimSpace (goTrimLeading line "+++ b/"),
    oldLine := 0, newLine := 0, inPatch := true, inHunk := false, position := 0 }

/-- The `@@` hunk-header branch of the scan loop. -/
def hunkHeaderStep (s : ScanState) (line : String) : ScanState :=
  { s with
    oldLine := parseOldHunkStart line, newLine := parseNewHunkStart line,
    inHunk := true }

/-- Record an Added hunk-body line in the newLines map. -/
def recordAdded (s : ScanState) (line : String) : ScanState :=
  { s with
    position := s.position + 1, newLine := s.newLine + 1,
    lineMap := updateFileLines s.lineMap s.currentFile
      (fun fl => { fl with New := ainsert fl.New s.newLine ⟨s.position + 1, goTrimLeading line "+", "+"⟩ }) }

/-- Record a Removed hunk-body line in the oldLines map. -/
def recordRemoved (s : ScanState) (line : String) : ScanState :=
  { s with
    position := s.position + 1, oldLine := s.oldLine + 1,
    lineMap := updateFileLines s.lineMap s.currentFile
      (fun fl => { fl with Old := ainsert fl.Old s.oldLine ⟨s.position + 1, goTrimLeading line "-", "-"⟩ }) }

/-- Record a Context hunk-body line identically in both maps. -/
def recordContext (s : ScanState) (line : String) : ScanState :=
  { s with
    position := s.position + 1, oldLine := s.oldLine + 1, newLine := s.newLine + 1,
    lineMap := updateFileLines s.lineMap s.currentFile (fun fl =>
      ⟨ainsert fl.Old s.oldLine ⟨s.position + 1, goTrimLeading line " ", " "⟩,
       ainsert fl.New s.newLine ⟨s.position + 1, goTrimLeading line " ", " "⟩⟩) }

/-- One iteration of the `buildDiffPositionMap` scan loop, in the branch
order of the source. -/
def scanLine (s : ScanState) (line : String) : ScanState :=
  if goStartsWith line "diff --git " then fileHeaderReset s
  else if goStartsWith line "+++ " && !goStartsWith line "+++ b/" then fileHeaderReset s
  else if goStartsWith line "+++ b/" then fileHeaderStep s line
  else if !s.inPatch || s.currentFile = "" then s
  else if goStartsWith line "@@" then hunkHeaderStep s line
  else if !s.inHunk || (s.oldLine = 0 && s.newLine = 0) then s
  else if line = "\\ No newline at end of file" then s
  else if line = "" then s
  else if !goStartsWith line "+" && !goStartsWith line "-" && !goStartsWith line " " then s
  else if goStartsWith line "+" then recordAdded s line
  else if goStartsWith line "-" then recordRemoved s line
  else recordContext s line

def buildDiffPositionMap (diffText : String) : List (String × diffPositionLines) :=
  ((goSplitChar diffText '\n').foldl scanLine initScanState).lineMap

/-- Whether the scan step on `line` from state `s` records a hunk-body line
(the guard chain of `scanLine` down to the three-marker case). -/
def recordsAt (s : ScanState) (line : String) : Bool :=
  !goStartsWith line "diff --git " && !goStartsWith line "+++ " &&
  s.inPatch && s.currentFile ≠ "" && !goStartsWith line "@@" &&
  s.inHunk && !(s.oldLine = 0 && s.newLine = 0) &&
  line ≠ "\\ No newline at end of file" && line ≠ "" &&
  (goStartsWith line "+" || goStartsWith line "-" || goStartsWith line " ")

def akey {α β : Type} [DecidableEq α] (m : List (α × β)) (k : α) : Bool :=
  (alookup m k).isSome

/-- Instrumentation: does the scan step on `line` from `s` insert at a line
number already present in the corresponding map?  Valid unified diffs never
do (their hunks cover disjoint, increasing line ranges). -/
def stepOverwrites (s : ScanState) (line : String) : Bool :=
  if recordsAt s line then
    let fl := (alookup s.lineMap s.currentFile).getD { Old := [], New := [] }
    if goStartsWith line "+" then akey fl.New s.newLine
    else if goStartsWith line "-" then akey fl.Old s.oldLine
    else akey fl.Old s.oldLine || akey fl.New s.newLine
  else false

/-- The diff text never writes a map key twice while being indexed. -/
def NoOverwrite (diffText : String) : Bool :=
  !((goSplitChar diffText '\n').foldl
      (fun p l => (scanLine p.1 l, p.2 || stepOverwrites p.1 l))
      (initScanState, false)).2

/-! ### Line resolver (resolveLineInfo and helpers) -/

def normalizeSnippet (input : String) : String :=
  let trimmed := goTrimSpace (goTrim input ['\x60'])
  if trimmed = "" then "" else goJoin (goFields trimmed) " "

def isInvalidSnippet (snippet : String) : Bool :=
  let normalized := normalizeSnippet snippet
  if normalized = "" then true
  else if goContains normalized "..." || goContains normalized "…" then true
  else false

/-- Whether one map entry's normalised content contains the normalised
snippet (the comparison inside the `findBySnippet` loop). -/
def snippetMatches (normalized : String) (e : Int × diffLineInfo) : Bool :=
  goContains (normalizeSnippet e.2.Content) normalized

/-- Model of `findBySnippet`.  The Go loop visits every map entry once,
counts the entries whose normalised content contains the normalised
snippet, and succeeds exactly when that count is one, returning the unique
match; this equals the filter formulation below (iteration order only
varies which of several matches is held last, and with several the
function fails). -/
def findBySnippet (lines : List (Int × diffLineInfo)) (snippet : String) :
    Option diffLineInfo :=
  let normalized := normalizeSnippet snippet
  if normalized = "" then none
  else
    match lines.filter (snippetMatches normalized) with
    | [e] => some e.2
    | _ => none

/-- The snippet-cleaning head of `resolveLineInfo`: strip one leading `+`
or `-` diff marker and surrounding space.  (`cleanCode[0]` in Go reads a
byte, which coincides with the first character for the ASCII markers.) -/
def stripDiffMarker (code : String) : String :=
  match code.data with
  | c :: rest => if c = '+' ∨ c = '-' then goTrimSpace (String.mk rest) else code
  | [] => code

/-- Strategy 1 of `resolveLineInfo` (snippet matching).  The source sets
its locals `searchNew := true` and `searchOld := true` in every `Side`
branch, so those locals are inlined as `true` here. -/
def snippetTier (fileLines : diffPositionLines) (side cleanCode : String) :
    Option diffLineInfo :=
  match (if side ≠ "LEFT" then findBySnippet fileLines.New cleanCode else none) with
  | some info => some info
  | none =>
    match (if side ≠ "RIGHT" then findBySnippet fileLines.Old cleanCode else none) with
    | some info => some info
    | none =>
      if side = "LEFT" then findBySnippet fileLines.New cleanCode
      else if side = "RIGHT" then findBySnippet fileLines.Old cleanCode
      else none

/-- Strategy 2 of `resolveLineInfo` (line-number matching): four lookup
attempts in source order, each falling through on a miss. -/
def lineNumberTier (fileLines : diffPositionLines) (issue : reviewIssue) :
    Option diffLineInfo :=
  match (if issue.Side = "RIGHT" ∧ issue.NewLine > 0 then
      alookup fileLines.New issue.NewLine else none) with
  | some info => some info
  | none =>
    match (if issue.Side = "LEFT" ∧ issue.OldLine > 0 then
        alookup fileLines.Old issue.OldLine else none) with
    | some info => some info
    | none =>
      match (if issue.NewLine > 0 then alookup fileLines.New issue.NewLine else none) with
      | some info => some info
      | none =>
        if issue.OldLine > 0 then alookup fileLines.Old issue.OldLine else none

/-- Model of `resolveLineInfo`; the Go `(diffLineInfo, bool)` return becomes
an `Option`. -/
def resolveLineInfo (fileLines : diffPositionLines) (issue : reviewIssue) :
    Option diffLineInfo :=
  let cleanCode := stripDiffMarker issue.Code
  if cleanCode ≠ "" ∧ isInvalidSnippet cleanCode then none
  else if cleanCode ≠ "" then snippetTier fileLines issue.Side cleanCode
  else lineNumberTier fileLines issue

/-- Model of `findLineNumberByPosition`.  Go ranges over the map in
unspecified order and returns the first hit; within one map built by the
indexer positions are distinct, so first-in-list order is faithful. -/
def findLineNumberByPosition (lines : List (Int × diffLineInfo)) (position : Int) : Int :=
  match lines with
  | [] => 0
  | (lineNum, info) :: rest =>
    if info.Position = position then lineNum else findLineNumberByPosition rest position

def isDuplicateComment (existingComments : List Comment) (filePath : String)
    (line : Int) : Bool :=
  existingComments.any (fun c => c.Path = filePath ∧ c.Line = line)

/-! ### Comment dispatcher (postInlineIssues) -/

/-- The arguments of one `PostInlineComment` call that vary per issue,
plus (`resolved`) the matched diff line the call targets, recorded for
specification purposes.  The comment body built by `buildInlineBody`
influences no control flow and is not modelled. -/
structure PostOp where
  file : String
  lineParam : Int
  oldLine : Int
  newLine : Int
  resolved : diffLineInfo
deriving DecidableEq, Repr

/-- Run-wide inputs of `postInlineIssues`: the configuration flag, the
provider type, the pre-fetched existing-comment list (the Go code falls
back to the empty list when the fetch fails), the diff index, and the
outcome of each provider post call. -/
structure DispatchCtx where
  providerType : String
  commentOnlyChanges : Bool
  existingComments : List Comment
  positionMap : List (String × diffPositionLines)
  postSucceeds : PostOp → Bool

structure DispatchState where
  posts : List PostOp
  unmatched : List reviewIssue
  posted : Nat
deriving Repr

/-- The `actualOldLine`/`actualNewLine` pair computed in the
`postInlineIssues` loop by reverse lookup of the matched position. -/
def actualLinesOf (fileLines : diffPositionLines) (lineInfo : diffLineInfo) :
    Int × Int :=
  if lineInfo.Kind = "+" then
    ((0 : Int), findLineNumberByPosition fileLines.New lineInfo.Position)
  else if lineInfo.Kind = "-" then
    (findLineNumberByPosition fileLines.Old lineInfo.Position, (0 : Int))
  else
    (findLineNumberByPosition fileLines.Old lineInfo.Position,
     findLineNumberByPosition fileLines.New lineInfo.Position)

/-- The `targetLine` consulted for deduplication: the actual new line
number, or the actual old one when the new one is zero. -/
def targetLineOf (fileLines : diffPositionLines) (lineInfo : diffLineInfo) : Int :=
  let actualLines := actualLinesOf fileLines lineInfo
  if actualLines.2 = 0 then actualLines.1 else actualLines.2

/-- The `PostInlineComment` call arguments assembled for one issue. -/
def mkPostOp (ctx : DispatchCtx) (fileLines : diffPositionLines)
    (issue : reviewIssue) (lineInfo : diffLineInfo) : PostOp :=
  { file := issue.File,
    lineParam := if ctx.providerType = ProviderTypeGitLab then 0 else lineInfo.Position,
    oldLine := (actualLinesOf fileLines lineInfo).1,
    newLine := (actualLinesOf fileLines lineInfo).2,
    resolved := lineInfo }

/-- The body of the `postInlineIssues` loop for one issue. -/
def dispatchIssue (ctx : DispatchCtx) (st : DispatchState) (issue : reviewIssue) :
    DispatchState :=
  match alookup ctx.positionMap issue.File with
  | none => { st with unmatched := st.unmatched ++ [issue] }
  | some fileLines =>
    match resolveLineInfo fileLines issue with
    | none => { st with unmatched := st.unmatched ++ [issue] }
    | some lineInfo =>
      if lineInfo.Kind = " " ∧ ctx.commentOnlyChanges then st
      else if lineInfo.Kind = " " ∧ ctx.providerType = ProviderTypeGitLab then
        { st with unmatched := st.unmatched ++ [issue] }
      else if isDuplicateComment ctx.existingComments issue.File
          (targetLineOf fileLines lineInfo) then st
      else if ctx.postSucceeds (mkPostOp ctx fileLines issue lineInfo) then
        { st with
          posts := st.posts ++ [mkPostOp ctx fileLines issue lineInfo],
          posted := st.posted + 1 }
      else
        { st with
          posts := st.posts ++ [mkPostOp ctx fileLines issue lineInfo],
          unmatched := st.unmatched ++ [issue] }

def postInlineIssues (ctx : DispatchCtx) (issues : List reviewIssue) : DispatchState :=
  issues.foldl (dispatchIssue ctx) { posts := [], unmatched := [], posted := 0 }

/-- The line-selection rule of `GitLabClient.PostInlineComment`: the
position object carries `new_line` when the new line number is positive,
else `old_line` when the old one is, else the call is rejected. -/
def gitlabPositionLine (oldLine newLine : Int) : Option (String × Int) :=
  if newLine > 0 then some ("new_line", newLine)
  else if oldLine > 0 then some ("old_line", oldLine)
  else none

/-! ### Fallback table rendering (buildUnmatchedIssuesTable) -/

def escapeTable (value : String) : String :=
  let trimmed := goTrimSpace value
  if trimmed = "" then "-"
  else goReplaceAll (goReplaceAll trimmed "\n" " ") "|" "\\|"

def formatLineValue (value : Int) : String :=
  if value ≤ 0 then "-" else toString value

/-- One row of the fallback table: the Go
`fmt.Sprintf("| %s:%s | %s | %s | %s | %s | %s |\n", ...)` call. -/
def issueRow (issue : reviewIssue) : String :=
  "| " ++ escapeTable issue.File ++ ":" ++ formatLineValue issue.NewLine ++ " | " ++
  escapeTable issue.Code ++ " | " ++ escapeTable issue.Severity ++ " | " ++
  escapeTable issue.Category ++ " | " ++ escapeTable issue.Problem ++ " | " ++
  escapeTable issue.Suggestion ++ " |\n"

def tableHeader : String :=
  "### 其他问题\n| 文件名 | 代码片段 | 严重程度 | 类别 | 问题描述 | 建议修改 |\n|---|---|---|---|---|---|\n"

def buildUnmatchedIssuesTable (issues : List reviewIssue) : String :=
  if issues.length = 0 then ""
  else goTrimSpace (tableHeader ++ goJoin (issues.map issueRow) "")

/-! ### Supporting lemmas -/

theorem alookup_mem {α β : Type} [DecidableEq α] {m : List (α × β)} {k : α} {v : β}
    (h : alookup m k = some v) : (k, v) ∈ m := by
  induction m with
  | nil => simp [alookup] at h
  | cons e rest ih =>
    obtain ⟨k', v'⟩ := e
    rw [alookup] at h
    by_cases hk : k' = k
    · subst hk
      rw [if_pos rfl] at h
      cases h
      exact List.mem_cons_self _ _
    · rw [if_neg hk] at h
      exact List.mem_cons_of_mem _ (ih h)

theorem ainsert_mem {α β : Type} [DecidableEq α] {m : List (α × β)} {k : α} {v : β}
    {p : α × β} (h : p ∈ ainsert m k v) : p = (k, v) ∨ p ∈ m := by
  induction m with
  | nil =>
    rw [ainsert] at h
    rcases List.mem_singleton.mp h with h1
    exact Or.inl h1
  | cons e rest ih =>
    obtain ⟨k', v'⟩ := e
    rw [ainsert] at h
    by_cases hk : k' = k
    · rw [if_pos hk] at h
      rcases List.mem_cons.mp h with h1 | h2
      · exact Or.inl h1
      · exact Or.inr (List.mem_cons_of_mem _ h2)
    · rw [if_neg hk] at h
      rcases List.mem_cons.mp h with h1 | h2
      · exact Or.inr (h1 ▸ List.mem_cons_self _ _)
      · rcases ih h2 with h3 | h4
        · exact Or.inl h3
        · exact Or.inr (List.mem_cons_of_mem _ h4)

theorem ainsert_fresh_mem {α β : Type} [DecidableEq α] {m : List (α × β)} {k : α}
    {v : β} {p : α × β} (hfresh : akey m k = false) (h : p ∈ m) :
    p ∈ ainsert m k v := by
  induction m with
  | nil => cases h
  | cons e rest ih =>
    obtain ⟨k', v'⟩ := e
    have hk : ¬ k' = k := by
      intro hkk
      subst hkk
      simp [akey, alookup] at hfresh
    rw [ainsert, if_neg hk]
    rcases List.mem_cons.mp h with h1 | h2
    · exact h1 ▸ List.mem_cons_self _ _
    · have hfresh' : akey rest k = false := by
        simpa [akey, alookup, if_neg hk] using hfresh
      exact List.mem_cons_of_mem _ (ih hfresh' h2)

theorem alookup_ainsert_self {α β : Type} [DecidableEq α] (m : List (α × β))
    (k : α) (v : β) : alookup (ainsert m k v) k = some v := by
  induction m with
  | nil => simp [ainsert, alookup]
  | cons e rest ih =>
    obtain ⟨k', v'⟩ := e
    rw [ainsert]
    by_cases hk : k' = k
    · rw [if_pos hk, alookup, if_pos rfl]
    · rw [if_neg hk, alookup, if_neg hk]
      exact ih

theorem updateFileLines_mem {m : List (String × diffPositionLines)} {file : String}
    {g : diffPositionLines → diffPositionLines} {p : String × diffPositionLines}
    (h : p ∈ updateFileLines m file g) :
    p ∈ m ∨ ∃ fl, alookup m file = some fl ∧ p = (file, g fl) := by
  induction m with
  | nil =>
    rw [updateFileLines] at h
    cases h
  | cons e rest ih =>
    obtain ⟨k, v⟩ := e
    rw [updateFileLines] at h
    by_cases hk : k = file
    · rw [if_pos hk] at h
      subst hk
      rcases List.mem_cons.mp h with h1 | h2
      · exact Or.inr ⟨v, by rw [alookup, if_pos rfl], h1⟩
      · exact Or.inl (List.mem_cons_of_mem _ h2)
    · rw [if_neg hk] at h
      rcases List.mem_cons.mp h with h1 | h2
      · exact Or.inl (h1 ▸ List.mem_cons_self _ _)
      · rcases ih h2 with h3 | ⟨fl, hfl, hp⟩
        · exact Or.inl (List.mem_cons_of_mem _ h3)
        · exact Or.inr ⟨fl, by rw [alookup, if_neg hk]; exact hfl, hp⟩

theorem alookup_updateFileLines_isSome (m : List (String × diffPositionLines))
    (file k : String) (g : diffPositionLines → diffPositionLines) :
    (alookup (updateFileLines m file g) k).isSome = (alookup m k).isSome := by
  induction m with
  | nil => rw [updateFileLines]
  | cons e rest ih =>
    obtain ⟨k', v⟩ := e
    rw [updateFileLines]
    by_cases hk : k' = file
    · rw [if_pos hk, alookup, alookup]
      by_cases hkk : k' = k
      · rw [if_pos hkk, if_pos hkk]
        rfl
      · rw [if_neg hkk, if_neg hkk]
    · rw [if_neg hk, alookup, alookup]
      by_cases hkk : k' = k
      · rw [if_pos hkk, if_pos hkk]
      · rw [if_neg hkk, if_neg hkk]
        exact ih

/-- First-success chaining of two optional results. -/
def ofirst (a b : Option diffLineInfo) : Option diffLineInfo :=
  match a with
  | some v => some v
  | none => b

theorem ofirst_isSome (a b : Option diffLineInfo) :
    (ofirst a b).isSome = (a.isSome || b.isSome) := by
  cases a <;> simp [ofirst]

theorem valid_snippet_normalized_ne {s : String}
    (hI : isInvalidSnippet s = false) : normalizeSnippet s ≠ "" := by
  intro hz
  rw [isInvalidSnippet, hz] at hI
  simp at hI

theorem valid_snippet_ne {s : String} (hI : isInvalidSnippet s = false) : s ≠ "" := by
  intro h0
  rw [h0] at hI
  exact absurd hI (by decide)

theorem findBySnippet_some {lines : List (Int × diffLineInfo)} {snippet : String}
    {v : diffLineInfo} (h : findBySnippet lines snippet = some v) :
    ∃ k, lines.filter (snippetMatches (normalizeSnippet snippet)) = [(k, v)] := by
  simp only [findBySnippet] at h
  by_cases hz : normalizeSnippet snippet = ""
  · rw [if_pos hz] at h
    cases h
  · rw [if_neg hz] at h
    split at h
    · next e heq =>
      cases h
      exact ⟨e.1, heq⟩
    · cases h

theorem findBySnippet_eq_of_filter {lines : List (Int × diffLineInfo)}
    {snippet : String} {k : Int} {v : diffLineInfo}
    (hz : normalizeSnippet snippet ≠ "")
    (h : lines.filter (snippetMatches (normalizeSnippet snippet)) = [(k, v)]) :
    findBySnippet lines snippet = some v := by
  simp only [findBySnippet]
  rw [if_neg hz, h]

theorem findBySnippet_none_of_filter (lines : List (Int × diffLineInfo))
    (snippet : String)
    (h : (lines.filter (snippetMatches (normalizeSnippet snippet))).length ≠ 1) :
    findBySnippet lines snippet = none := by
  simp only [findBySnippet]
  by_cases hz : normalizeSnippet snippet = ""
  · rw [if_pos hz]
  · rw [if_neg hz]
    split
    · next e heq =>
      rw [heq] at h
      simp at h
    · rfl

theorem findBySnippet_isSome_iff {lines : List (Int × diffLineInfo)}
    {snippet : String} (hz : normalizeSnippet snippet ≠ "") :
    (findBySnippet lines snippet).isSome = true ↔
      (lines.filter (snippetMatches (normalizeSnippet snippet))).length = 1 := by
  constructor
  · intro h
    obtain ⟨v, hv⟩ := Option.isSome_iff_exists.mp h
    obtain ⟨k, hk⟩ := findBySnippet_some hv
    rw [hk]
    rfl
  · intro h
    obtain ⟨e, he⟩ := List.length_eq_one.mp h
    obtain ⟨k, v⟩ := e
    rw [findBySnippet_eq_of_filter hz he]
    rfl

theorem snippetTier_eq (fl : diffPositionLines) (side cleanCode : String) :
    snippetTier fl side cleanCode =
      if side = "LEFT" then
        ofirst (findBySnippet fl.Old cleanCode) (findBySnippet fl.New cleanCode)
      else
        ofirst (findBySnippet fl.New cleanCode) (findBySnippet fl.Old cleanCode) := by
  unfold snippetTier ofirst
  by_cases hL : side = "LEFT"
  · rw [hL]
    cases hOld : findBySnippet fl.Old cleanCode with
    | none => cases hNew : findBySnippet fl.New cleanCode <;> simp [hOld, hNew]
    | some v => simp [hOld]
  · by_cases hR : side = "RIGHT"
    · rw [hR]
      cases hNew : findBySnippet fl.New cleanCode with
      | none => cases hOld : findBySnippet fl.Old cleanCode <;> simp [hNew, hOld]
      | some v => simp [hNew]
    · cases hNew : findBySnippet fl.New cleanCode with
      | none => cases hOld : findBySnippet fl.Old cleanCode <;> simp [hL, hR, hNew, hOld]
      | some v => simp [hL, hR, hNew]

theorem snippetTier_isSome_iff (fl : diffPositionLines) (side cleanCode : String)
    (hz : normalizeSnippet cleanCode ≠ "") :
    ((snippetTier fl side cleanCode).isSome = true) ↔
      ((fl.New.filter (snippetMatches (normalizeSnippet cleanCode))).length = 1 ∨
       (fl.Old.filter (snippetMatches (normalizeSnippet cleanCode))).length = 1) := by
  rw [snippetTier_eq]
  by_cases hL : side = "LEFT" <;>
    simp [hL, ofirst_isSome, Bool.or_eq_true, findBySnippet_isSome_iff hz, or_comm]

theorem snippetTier_unique (fl : diffPositionLines) (side cleanCode : String)
    {k : Int} {v : diffLineInfo} (hz : normalizeSnippet cleanCode ≠ "")
    (h : fl.New.filter (snippetMatches (normalizeSnippet cleanCode)) ++
        fl.Old.filter (snippetMatches (normalizeSnippet cleanCode)) = [(k, v)]) :
    snippetTier fl side cleanCode = some v := by
  rw [snippetTier_eq]
  rcases hN : fl.New.filter (snippetMatches (normalizeSnippet cleanCode)) with _ | ⟨x, xs⟩
  · rw [hN] at h
    simp at h
    have hOldSome := findBySnippet_eq_of_filter hz h
    have hNewNone := findBySnippet_none_of_filter fl.New cleanCode (by rw [hN]; simp)
    rw [hOldSome, hNewNone]
    by_cases hL : side = "LEFT" <;> simp [hL, ofirst]
  · rw [hN] at h
    rcases List.cons_eq_cons.mp h with ⟨hx, hrest⟩
    have hxs : xs = [] ∧ fl.Old.filter (snippetMatches (normalizeSnippet cleanCode)) = [] :=
      List.append_eq_nil.mp hrest
    have hNewSome := findBySnippet_eq_of_filter hz
      (by rw [hN, hxs.1, hx] : fl.New.filter (snippetMatches (normalizeSnippet cleanCode)) = [(k, v)])
    have hOldNone := findBySnippet_none_of_filter fl.Old cleanCode (by rw [hxs.2]; simp)
    rw [hNewSome, hOldNone]
    by_cases hL : side = "LEFT" <;> simp [hL, ofirst]

theorem resolveLineInfo_snippet (fl : diffPositionLines) (issue : reviewIssue)
    (hI : isInvalidSnippet (stripDiffMarker issue.Code) = false) :
    resolveLineInfo fl issue = snippetTier fl issue.Side (stripDiffMarker issue.Code) := by
  have hne := valid_snippet_ne hI
  simp [resolveLineInfo, hne, hI]

theorem resolveLineInfo_lineTier (fl : diffPositionLines) (issue : reviewIssue)
    (h0 : stripDiffMarker issue.Code = "") :
    resolveLineInfo fl issue = lineNumberTier fl issue := by
  simp [resolveLineInfo, h0]

theorem resolveLineInfo_invalid (fl : diffPositionLines) (issue : reviewIssue)
    (hne : stripDiffMarker issue.Code ≠ "")
    (hI : isInvalidSnippet (stripDiffMarker issue.Code) = true) :
    resolveLineInfo fl issue = none := by
  simp [resolveLineInfo, hne, hI]

/-! ### Claim theorems -/

/-- Claim C1, amended.  For an issue whose snippet is valid (non-empty
after normalisation, no ellipsis placeholder): resolution succeeds exactly
when the normalised snippet occurs in exactly one line of the newLines map
or in exactly one line of the oldLines map — ambiguity is judged per map,
not across the two maps together — and when the snippet occurs in exactly
one line of the whole index (both maps counted together), resolution
returns that line. -/
theorem claim_C1 (fl : diffPositionLines) (issue : reviewIssue)
    (hI : isInvalidSnippet (stripDiffMarker issue.Code) = false) :
    ((resolveLineInfo fl issue).isSome = true ↔
      ((fl.New.filter (snippetMatches (normalizeSnippet (stripDiffMarker issue.Code)))).length = 1 ∨
       (fl.Old.filter (snippetMatches (normalizeSnippet (stripDiffMarker issue.Code)))).length = 1)) ∧
    (∀ k v,
      fl.New.filter (snippetMatches (normalizeSnippet (stripDiffMarker issue.Code))) ++
        fl.Old.filter (snippetMatches (normalizeSnippet (stripDiffMarker issue.Code))) = [(k, v)] →
      resolveLineInfo fl issue = some v) := by
  have hz := valid_snippet_normalized_ne hI
  rw [resolveLineInfo_snippet fl issue hI]
  constructor
  · exact snippetTier_isSome_iff fl issue.Side _ hz
  · intro k v h
    exact snippetTier_unique fl issue.Side (stripDiffMarker issue.Code) hz h

/-- Witness for claim C1 at a concrete input: a snippet occurring in
exactly one line of the index resolves to that line. -/
theorem claim_C1_witness :
    resolveLineInfo ⟨[], [(3, ⟨1, "foo", "+"⟩)]⟩
        ⟨"f", "", 0, 0, "foo", "", "", "", ""⟩ = some ⟨1, "foo", "+"⟩ :=
  (claim_C1 ⟨[], [(3, ⟨1, "foo", "+"⟩)]⟩ ⟨"f", "", 0, 0, "foo", "", "", "", ""⟩
    (by decide)).2 3 ⟨1, "foo", "+"⟩ (by decide)

/-- Counterexample to claim C1 as stated: the snippet "ctx" is valid and
occurs in two lines of the file's index counting the oldLines and newLines
maps together (the two sides of one Context line), so the claim says
resolution must fail as ambiguous — but the code resolves it. -/
theorem claim_C1_counterexample :
    isInvalidSnippet (stripDiffMarker "ctx") = false ∧
    ((diffPositionLines.mk [(10, ⟨1, "ctx", " "⟩)] [(10, ⟨1, "ctx", " "⟩)]).New.filter
        (snippetMatches (normalizeSnippet (stripDiffMarker "ctx")))).length +
      ((diffPositionLines.mk [(10, ⟨1, "ctx", " "⟩)] [(10, ⟨1, "ctx", " "⟩)]).Old.filter
        (snippetMatches (normalizeSnippet (stripDiffMarker "ctx")))).length = 2 ∧
    resolveLineInfo ⟨[(10, ⟨1, "ctx", " "⟩)], [(10, ⟨1, "ctx", " "⟩)]⟩
      ⟨"f", "", 0, 0, "ctx", "", "", "", ""⟩ = some ⟨1, "ctx", " "⟩ := by
  decide

/-- Claim C4: indexing the sample diff hunk `@@ -10,3 +10,4 @@` with body
lines ` context`, `-old line`, `+new line`, `+added line2`, ` context2`
assigns positions 1..5 in order, with newLines[11] = "new line" at
position 3, oldLines[11] = "old line" at position 2, and newLines[10] and
oldLines[10] both = "context" at position 1. -/
theorem claim_C4 :
    buildDiffPositionMap
        "diff --git a/f b/f\n--- a/f\n+++ b/f\n@@ -10,3 +10,4 @@\n context\n-old line\n+new line\n+added line2\n context2" =
      [("f",
        { Old := [(10, ⟨1, "context", " "⟩), (11, ⟨2, "old line", "-"⟩),
                  (12, ⟨5, "context2", " "⟩)],
          New := [(10, ⟨1, "context", " "⟩), (11, ⟨3, "new line", "+"⟩),
                  (12, ⟨4, "added line2", "+"⟩), (13, ⟨5, "context2", " "⟩)] })] := by
  decide

/-- Claim C8: the single 6-column row extracts to exactly one issue with
oldLine 12, newLine 0, empty snippet and suggestion, and the stated
severity, category and problem. -/
theorem claim_C8 :
    parseIssuesFromReview "file.go | 12 | - | major | bug | desc" =
      [{ File := "file.go", Side := "", OldLine := 12, NewLine := 0, Code := "",
         Severity := "major", Category := "bug", Problem := "desc", Suggestion := "" }] := by
  decide


/-- First-success over a list of attempts. -/
def firstSome : List (Option diffLineInfo) → Option diffLineInfo
  | [] => none
  | o :: rest =>
    match o with
    | some v => some v
    | none => firstSome rest

/-- Spec-side rendering of the line-number tier, following the claim's
words: try, in order, (side=new & newLine), (side=old & oldLine), bare
newLine, bare oldLine, returning the first direct hit in the
corresponding map. -/
def lineTierSpec (fl : diffPositionLines) (issue : reviewIssue) : Option diffLineInfo :=
  firstSome
    [if issue.Side = "RIGHT" ∧ issue.NewLine > 0 then alookup fl.New issue.NewLine else none,
     if issue.Side = "LEFT" ∧ issue.OldLine > 0 then alookup fl.Old issue.OldLine else none,
     if issue.NewLine > 0 then alookup fl.New issue.NewLine else none,
     if issue.OldLine > 0 then alookup fl.Old issue.OldLine else none]

theorem lineNumberTier_eq_spec (fl : diffPositionLines) (issue : reviewIssue) :
    lineNumberTier fl issue = lineTierSpec fl issue := by
  unfold lineNumberTier lineTierSpec firstSome
  cases h1 : (if issue.Side = "RIGHT" ∧ issue.NewLine > 0 then
      alookup fl.New issue.NewLine else none) with
  | some v => simp [h1]
  | none =>
    cases h2 : (if issue.Side = "LEFT" ∧ issue.OldLine > 0 then
        alookup fl.Old issue.OldLine else none) with
    | some v => simp [h1, h2, firstSome]
    | none =>
      cases h3 : (if issue.NewLine > 0 then alookup fl.New issue.NewLine else none) with
      | some v => simp [h1, h2, h3, firstSome]
      | none =>
        cases h4 : (if issue.OldLine > 0 then alookup fl.Old issue.OldLine else none) with
        | some v => simp [h1, h2, h3, h4, firstSome]
        | none => simp [h1, h2, h3, h4, firstSome]

/-- Claim C3, amended.  The line-number tier is applied exactly when the
issue's snippet is empty after stripping a leading diff marker (so a code
field of just "+" or "-" counts as supplying no snippet), and then follows
the claimed four-step order; when a snippet remains after stripping but
matches no unique line in either map, the issue is unresolved — line
numbers are never consulted. -/
theorem claim_C3 (fl : diffPositionLines) (issue : reviewIssue) :
    (stripDiffMarker issue.Code = "" → resolveLineInfo fl issue = lineTierSpec fl issue) ∧
    (stripDiffMarker issue.Code ≠ "" →
      (fl.New.filter (snippetMatches (normalizeSnippet (stripDiffMarker issue.Code)))).length ≠ 1 →
      (fl.Old.filter (snippetMatches (normalizeSnippet (stripDiffMarker issue.Code)))).length ≠ 1 →
      resolveLineInfo fl issue = none) := by
  constructor
  · intro h0
    rw [resolveLineInfo_lineTier fl issue h0, lineNumberTier_eq_spec]
  · intro hne hN hO
    by_cases hI : isInvalidSnippet (stripDiffMarker issue.Code)
    · exact resolveLineInfo_invalid fl issue hne hI
    · have hI' : isInvalidSnippet (stripDiffMarker issue.Code) = false := by
        simpa using hI
      rw [resolveLineInfo_snippet fl issue hI']
      have hz := valid_snippet_normalized_ne hI'
      have hiff := snippetTier_isSome_iff fl issue.Side (stripDiffMarker issue.Code) hz
      cases hres : snippetTier fl issue.Side (stripDiffMarker issue.Code) with
      | none => rfl
      | some v =>
        rw [hres] at hiff
        simp at hiff
        rcases hiff with h | h
        · exact absurd h hN
        · exact absurd h hO

/-- Witness for claim C3: an issue with no snippet resolves via the
spec-ordered line-number tier, and an issue with a nowhere-matching
snippet is unresolved even though its line number is in the index. -/
theorem claim_C3_witness :
    resolveLineInfo ⟨[], [(5, ⟨1, "y", "+"⟩)]⟩ ⟨"f", "", 0, 5, "", "", "", "", ""⟩ =
      lineTierSpec ⟨[], [(5, ⟨1, "y", "+"⟩)]⟩ ⟨"f", "", 0, 5, "", "", "", "", ""⟩ ∧
    resolveLineInfo ⟨[], [(5, ⟨1, "y", "+"⟩)]⟩ ⟨"f", "", 0, 5, "zzz", "", "", "", ""⟩ = none :=
  ⟨(claim_C3 ⟨[], [(5, ⟨1, "y", "+"⟩)]⟩ ⟨"f", "", 0, 5, "", "", "", "", ""⟩).1 (by decide),
   (claim_C3 ⟨[], [(5, ⟨1, "y", "+"⟩)]⟩ ⟨"f", "", 0, 5, "zzz", "", "", "", ""⟩).2
     (by decide) (by decide) (by decide)⟩

/-- Counterexample to claim C3 as stated: the issue supplies the non-empty
code snippet "+", yet the resolver falls through to the line-number tier
(the snippet is empty once the diff marker is stripped) and resolves the
issue by its line number, although the snippet matches no line content. -/
theorem claim_C3_counterexample :
    (⟨"f", "", 0, 5, "+", "", "", "", ""⟩ : reviewIssue).Code ≠ "" ∧
    goContains (normalizeSnippet "x") "+" = false ∧
    resolveLineInfo ⟨[], [(5, ⟨1, "x", "+"⟩)]⟩ ⟨"f", "", 0, 5, "+", "", "", "", ""⟩ =
      lineTierSpec ⟨[], [(5, ⟨1, "x", "+"⟩)]⟩ ⟨"f", "", 0, 5, "+", "", "", "", ""⟩ ∧
    resolveLineInfo ⟨[], [(5, ⟨1, "x", "+"⟩)]⟩ ⟨"f", "", 0, 5, "+", "", "", "", ""⟩ =
      some ⟨1, "x", "+"⟩ := by
  decide

/-! ### Dispatcher lemmas -/

theorem dispatchIssue_posts_mem (ctx : DispatchCtx) (st : DispatchState)
    (issue : reviewIssue) {op : PostOp}
    (h : op ∈ (dispatchIssue ctx st issue).posts) :
    op ∈ st.posts ∨
      ∃ fl info, alookup ctx.positionMap issue.File = some fl ∧
        resolveLineInfo fl issue = some info ∧
        ¬(info.Kind = " " ∧ ctx.commentOnlyChanges = true) ∧
        ¬(info.Kind = " " ∧ ctx.providerType = ProviderTypeGitLab) ∧
        op = mkPostOp ctx fl issue info := by
  unfold dispatchIssue at h
  split at h
  · exact Or.inl h
  · next fl hfl =>
    split at h
    · exact Or.inl h
    · next info hres =>
      split at h
      · exact Or.inl h
      · next h1 =>
        split at h
        · exact Or.inl h
        · next h2 =>
          split at h
          · exact Or.inl h
          · next h3 =>
            split at h
            · rcases List.mem_append.mp h with h5 | h5
              · exact Or.inl h5
              · exact Or.inr ⟨fl, info, hfl, hres, h1, h2, List.mem_singleton.mp h5⟩
            · rcases List.mem_append.mp h with h5 | h5
              · exact Or.inl h5
              · exact Or.inr ⟨fl, info, hfl, hres, h1, h2, List.mem_singleton.mp h5⟩

theorem foldl_posts_inv (ctx : DispatchCtx) (P : PostOp → Prop)
    (hstep : ∀ st issue op, op ∈ (dispatchIssue ctx st issue).posts →
      op ∈ st.posts ∨ P op) :
    ∀ (issues : List reviewIssue) (st : DispatchState),
      (∀ op ∈ st.posts, P op) →
      ∀ op ∈ (issues.foldl (dispatchIssue ctx) st).posts, P op := by
  intro issues
  induction issues with
  | nil => intro st h op hop; exact h op hop
  | cons i rest ih =>
    intro st h op hop
    refine ih (dispatchIssue ctx st i) ?_ op hop
    intro op' hop'
    rcases hstep st i op' hop' with h1 | h1
    · exact h op' h1
    · exact h1

/-- Claim C2, amended.  With the Context-suppression flag on, or for the
line-addressed (GitLab) provider, no post operation ever targets a
Context-kind diff line; with the flag on, a resolved-to-Context issue is
silently dropped (it reaches neither the posts nor the fallback table);
only with the flag off and the GitLab provider is it demoted to the
fallback table. -/
theorem claim_C2 (ctx : DispatchCtx) (issues : List reviewIssue)
    (hp : ctx.commentOnlyChanges = true ∨ ctx.providerType = ProviderTypeGitLab) :
    (∀ op ∈ (postInlineIssues ctx issues).posts, op.resolved.Kind ≠ " ") ∧
    (∀ st issue fl info, alookup ctx.positionMap issue.File = some fl →
      resolveLineInfo fl issue = some info → info.Kind = " " →
      (ctx.commentOnlyChanges = true → dispatchIssue ctx st issue = st) ∧
      (ctx.commentOnlyChanges = false → ctx.providerType = ProviderTypeGitLab →
        dispatchIssue ctx st issue =
          { st with unmatched := st.unmatched ++ [issue] })) := by
  constructor
  · refine foldl_posts_inv ctx (fun op => op.resolved.Kind ≠ " ") ?_ issues
      { posts := [], unmatched := [], posted := 0 } (by intro op hop; cases hop)
    intro st issue op hop
    rcases dispatchIssue_posts_mem ctx st issue hop with h1 | ⟨fl, info, _, _, hpol1, hpol2, hop'⟩
    · exact Or.inl h1
    · refine Or.inr ?_
      rw [hop']
      show info.Kind ≠ " "
      intro hk
      rcases hp with hflag | hgl
      · exact hpol1 ⟨hk, hflag⟩
      · exact hpol2 ⟨hk, hgl⟩
  · intro st issue fl info hfl hres hk
    constructor
    · intro hflag
      simp [dispatchIssue, hfl, hres, hk, hflag]
    · intro hflag hgl
      simp [dispatchIssue, hfl, hres, hk, hflag, hgl]

/-- Claim C6, amended.  A resolved issue that reaches the deduplication
check — i.e. is not diverted by the Context-line policy first — whose
(file, target line) matches an existing comment produces no post
operation, no posted count, and no fallback entry: the dispatch step
leaves the state unchanged.  (An issue demoted by the Context policy is
appended to the fallback table before deduplication is consulted.) -/
theorem claim_C6 (ctx : DispatchCtx) (st : DispatchState) (issue : reviewIssue)
    (fl : diffPositionLines) (info : diffLineInfo)
    (hfl : alookup ctx.positionMap issue.File = some fl)
    (hres : resolveLineInfo fl issue = some info)
    (hpol1 : ¬(info.Kind = " " ∧ ctx.commentOnlyChanges = true))
    (hpol2 : ¬(info.Kind = " " ∧ ctx.providerType = ProviderTypeGitLab))
    (hdup : isDuplicateComment ctx.existingComments issue.File
        (targetLineOf fl info) = true) :
    dispatchIssue ctx st issue = st := by
  simp [dispatchIssue, hfl, hres, hpol1, hpol2, hdup]

def sampleIndexW6 : diffPositionLines := ⟨[], [(5, ⟨1, "x", "+"⟩)]⟩

def ctxW6 : DispatchCtx :=
  { providerType := ProviderTypeGitHub, commentOnlyChanges := false,
    existingComments := [⟨"f", 5⟩], positionMap := [("f", sampleIndexW6)],
    postSucceeds := fun _ => true }

/-- Witness for claim C6: a duplicate (file, line 5) target is skipped
without any state change. -/
theorem claim_C6_witness :
    dispatchIssue ctxW6 { posts := [], unmatched := [], posted := 0 }
        ⟨"f", "", 0, 5, "", "", "", "", ""⟩ =
      { posts := [], unmatched := [], posted := 0 } :=
  claim_C6 ctxW6 { posts := [], unmatched := [], posted := 0 }
    ⟨"f", "", 0, 5, "", "", "", "", ""⟩ sampleIndexW6 ⟨1, "x", "+"⟩
    (by decide) (by decide) (by decide) (by decide) (by decide)

def sampleIndexC6 : diffPositionLines := ⟨[(10, ⟨1, "ctx", " "⟩)], [(10, ⟨1, "ctx", " "⟩)]⟩

def ctxC6 : DispatchCtx :=
  { providerType := ProviderTypeGitLab, commentOnlyChanges := false,
    existingComments := [⟨"f", 10⟩], positionMap := [("f", sampleIndexC6)],
    postSucceeds := fun _ => true }

def issueC6 : reviewIssue := ⟨"f", "", 0, 0, "ctx", "", "", "", ""⟩

/-- Counterexample to claim C6 as stated: an issue resolved to a Context
line whose (file, target line) is already commented is nevertheless added
to the fallback table, because the GitLab Context-line demotion runs
before the deduplication check. -/
theorem claim_C6_counterexample :
    resolveLineInfo sampleIndexC6 issueC6 = some ⟨1, "ctx", " "⟩ ∧
    targetLineOf sampleIndexC6 ⟨1, "ctx", " "⟩ = 10 ∧
    isDuplicateComment ctxC6.existingComments "f" 10 = true ∧
    (postInlineIssues ctxC6 [issueC6]).unmatched = [issueC6] := by
  decide

def ctxC2 : DispatchCtx :=
  { providerType := ProviderTypeGitHub, commentOnlyChanges := true,
    existingComments := [], positionMap := [("f", sampleIndexC6)],
    postSucceeds := fun _ => true }

/-- Counterexample to claim C2 as stated: with the Context-suppression
flag enabled, an issue resolved to a Context line is dropped silently —
it is posted nowhere and, contrary to the claim, does not appear in the
fallback table either. -/
theorem claim_C2_counterexample :
    resolveLineInfo sampleIndexC6 issueC6 = some ⟨1, "ctx", " "⟩ ∧
    ctxC2.commentOnlyChanges = true ∧
    (postInlineIssues ctxC2 [issueC6]).posts = [] ∧
    (postInlineIssues ctxC2 [issueC6]).unmatched = [] := by
  decide

def ctxW2 : DispatchCtx :=
  { providerType := ProviderTypeGitLab, commentOnlyChanges := false,
    existingComments := [], positionMap := [("f", sampleIndexW6)],
    postSucceeds := fun _ => true }

/-- Witness for claim C2: in a GitLab-provider run that posts one comment
on an added line, the emitted post operation does not target a Context
line. -/
theorem claim_C2_witness :
    ({ file := "f", lineParam := 0, oldLine := 0, newLine := 5,
       resolved := ⟨1, "x", "+"⟩ } : PostOp).resolved.Kind ≠ " " :=
  (claim_C2 ctxW2 [⟨"f", "", 0, 5, "", "", "", "", ""⟩] (Or.inr rfl)).1
    { file := "f", lineParam := 0, oldLine := 0, newLine := 5, resolved := ⟨1, "x", "+"⟩ }
    (by decide)


/-! ### Resolver membership lemmas -/

theorem if_alookup_some {c : Prop} [Decidable c] {m : List (Int × diffLineInfo)}
    {k : Int} {v : diffLineInfo}
    (h : (if c then alookup m k else none) = some v) : alookup m k = some v := by
  by_cases hc : c
  · rwa [if_pos hc] at h
  · rw [if_neg hc] at h
    cases h

theorem findBySnippet_mem {lines : List (Int × diffLineInfo)} {snippet : String}
    {v : diffLineInfo} (h : findBySnippet lines snippet = some v) :
    ∃ k, (k, v) ∈ lines := by
  obtain ⟨k, hk⟩ := findBySnippet_some h
  refine ⟨k, List.mem_of_mem_filter (p := snippetMatches (normalizeSnippet snippet)) ?_⟩
  rw [hk]
  exact List.mem_singleton.mpr rfl

theorem snippetTier_mem {fl : diffPositionLines} {side cleanCode : String}
    {info : diffLineInfo} (h : snippetTier fl side cleanCode = some info) :
    (∃ k, (k, info) ∈ fl.New) ∨ (∃ k, (k, info) ∈ fl.Old) := by
  rw [snippetTier_eq] at h
  by_cases hL : side = "LEFT"
  · rw [if_pos hL] at h
    cases hOld : findBySnippet fl.Old cleanCode with
    | some w =>
      rw [hOld] at h
      simp [ofirst] at h
      exact Or.inr (h ▸ findBySnippet_mem hOld)
    | none =>
      rw [hOld] at h
      simp only [ofirst] at h
      exact Or.inl (findBySnippet_mem h)
  · rw [if_neg hL] at h
    cases hNew : findBySnippet fl.New cleanCode with
    | some w =>
      rw [hNew] at h
      simp [ofirst] at h
      exact Or.inl (h ▸ findBySnippet_mem hNew)
    | none =>
      rw [hNew] at h
      simp only [ofirst] at h
      exact Or.inr (findBySnippet_mem h)

theorem lineNumberTier_mem {fl : diffPositionLines} {issue : reviewIssue}
    {info : diffLineInfo} (h : lineNumberTier fl issue = some info) :
    (∃ k, (k, info) ∈ fl.New) ∨ (∃ k, (k, info) ∈ fl.Old) := by
  unfold lineNumberTier at h
  split at h
  · next v h1 =>
    cases h
    exact Or.inl ⟨issue.NewLine, alookup_mem (if_alookup_some h1)⟩
  · next h1 =>
    split at h
    · next v h2 =>
      cases h
      exact Or.inr ⟨issue.OldLine, alookup_mem (if_alookup_some h2)⟩
    · next h2 =>
      split at h
      · next v h3 =>
        cases h
        exact Or.inl ⟨issue.NewLine, alookup_mem (if_alookup_some h3)⟩
      · next h3 =>
        exact Or.inr ⟨issue.OldLine, alookup_mem (if_alookup_some h)⟩

theorem resolveLineInfo_mem {fl : diffPositionLines} {issue : reviewIssue}
    {info : diffLineInfo} (h : resolveLineInfo fl issue = some info) :
    (∃ k, (k, info) ∈ fl.New) ∨ (∃ k, (k, info) ∈ fl.Old) := by
  by_cases h0 : stripDiffMarker issue.Code = ""
  · rw [resolveLineInfo_lineTier fl issue h0] at h
    exact lineNumberTier_mem h
  · by_cases hI : isInvalidSnippet (stripDiffMarker issue.Code)
    · rw [resolveLineInfo_invalid fl issue h0 hI] at h
      cases h
    · have hI' : isInvalidSnippet (stripDiffMarker issue.Code) = false := by
        simpa using hI
      rw [resolveLineInfo_snippet fl issue hI'] at h
      exact snippetTier_mem h

theorem findLineNumberByPosition_pos {m : List (Int × diffLineInfo)} {pos : Int}
    (hall : ∀ p ∈ m, 0 < p.1) (hex : ∃ p ∈ m, p.2.Position = pos) :
    0 < findLineNumberByPosition m pos := by
  induction m with
  | nil =>
    obtain ⟨p, hp, _⟩ := hex
    cases hp
  | cons e rest ih =>
    obtain ⟨k, v⟩ := e
    rw [findLineNumberByPosition]
    by_cases hk : v.Position = pos
    · rw [if_pos hk]
      exact hall (k, v) (List.mem_cons_self _ _)
    · rw [if_neg hk]
      refine ih (fun p hp => hall p (List.mem_cons_of_mem _ hp)) ?_
      obtain ⟨p, hp, hpos⟩ := hex
      rcases List.mem_cons.mp hp with h1 | h2
      · rw [h1] at hpos
        exact absurd hpos hk
      · exact ⟨p, h2, hpos⟩

/-- Claim C7, amended.  Provided every line number recorded in the index
is positive (true of every well-formed hunk header) and each map contains
only its own kinds, every post operation emitted in a GitLab-provider run
carries exactly one non-zero of (oldLine, newLine): Added lines carry only
the new line number, Removed lines only the old one, and the GitLab
client's position object selects exactly that side.  A malformed hunk
header declaring a zero start line can instead yield a both-zero pair (see
the counterexample), which the GitLab client rejects. -/
theorem claim_C7 (ctx : DispatchCtx) (issues : List reviewIssue)
    (hprov : ctx.providerType = ProviderTypeGitLab)
    (hpos : ∀ e ∈ ctx.positionMap, (∀ p ∈ e.2.Old, 0 < p.1) ∧ (∀ p ∈ e.2.New, 0 < p.1))
    (hkind : ∀ e ∈ ctx.positionMap,
      (∀ p ∈ e.2.Old, p.2.Kind = "-" ∨ p.2.Kind = " ") ∧
      (∀ p ∈ e.2.New, p.2.Kind = "+" ∨ p.2.Kind = " ")) :
    ∀ op ∈ (postInlineIssues ctx issues).posts,
      (op.oldLine = 0 ∧ 0 < op.newLine ∧ op.resolved.Kind = "+" ∧
        gitlabPositionLine op.oldLine op.newLine = some ("new_line", op.newLine)) ∨
      (op.newLine = 0 ∧ 0 < op.oldLine ∧ op.resolved.Kind = "-" ∧
        gitlabPositionLine op.oldLine op.newLine = some ("old_line", op.oldLine)) := by
  refine foldl_posts_inv ctx _ ?_ issues { posts := [], unmatched := [], posted := 0 }
    (by intro op hop; cases hop)
  intro st issue op hop
  rcases dispatchIssue_posts_mem ctx st issue hop with h1 | ⟨fl, info, hfl, hres, hpol1, hpol2, hop'⟩
  · exact Or.inl h1
  · refine Or.inr ?_
    subst hop'
    have hmem := alookup_mem hfl
    have hK : info.Kind ≠ " " := fun hk => hpol2 ⟨hk, hprov⟩
    rcases resolveLineInfo_mem hres with ⟨k, hkNew⟩ | ⟨k, hkOld⟩
    · have hplus : info.Kind = "+" := by
        rcases (hkind _ hmem).2 (k, info) hkNew with h | h
        · exact h
        · exact absurd h hK
      have hnl : 0 < findLineNumberByPosition fl.New info.Position :=
        findLineNumberByPosition_pos (hpos _ hmem).2 ⟨(k, info), hkNew, rfl⟩
      refine Or.inl ?_
      simp [mkPostOp, actualLinesOf, hplus, gitlabPositionLine, hnl]
    · have hminus : info.Kind = "-" := by
        rcases (hkind _ hmem).1 (k, info) hkOld with h | h
        · exact h
        · exact absurd h hK
      have hol : 0 < findLineNumberByPosition fl.Old info.Position :=
        findLineNumberByPosition_pos (hpos _ hmem).1 ⟨(k, info), hkOld, rfl⟩
      refine Or.inr ?_
      simp [mkPostOp, actualLinesOf, hminus, gitlabPositionLine, hol]

def sampleIndexW7 : diffPositionLines := ⟨[], [(5, ⟨1, "x", "+"⟩)]⟩

def ctxW7 : DispatchCtx :=
  { providerType := ProviderTypeGitLab, commentOnlyChanges := false,
    existingComments := [], positionMap := [("f", sampleIndexW7)],
    postSucceeds := fun _ => true }

def opW7 : PostOp := ⟨"f", 0, 0, 5, ⟨1, "x", "+"⟩⟩

/-- Witness for claim C7: the single post operation of a concrete GitLab
run addresses an Added line by its new line number only. -/
theorem claim_C7_witness :
    (opW7.oldLine = 0 ∧ 0 < opW7.newLine ∧ opW7.resolved.Kind = "+" ∧
      gitlabPositionLine opW7.oldLine opW7.newLine = some ("new_line", opW7.newLine)) ∨
    (opW7.newLine = 0 ∧ 0 < opW7.oldLine ∧ opW7.resolved.Kind = "-" ∧
      gitlabPositionLine opW7.oldLine opW7.newLine = some ("old_line", opW7.oldLine)) :=
  claim_C7 ctxW7 [⟨"f", "", 0, 5, "", "", "", "", ""⟩] rfl (by decide) (by decide)
    opW7 (by decide)

def ctxC7 : DispatchCtx :=
  { providerType := ProviderTypeGitLab, commentOnlyChanges := false,
    existingComments := [],
    positionMap := buildDiffPositionMap
      "diff --git a/f b/f\n--- a/f\n+++ b/f\n@@ -1,1 +0,0 @@\n+zz",
    postSucceeds := fun _ => true }

/-- Counterexample to claim C7 as stated: a malformed hunk header with a
declared new start of zero records an Added line at new line number 0, and
the resulting GitLab post operation carries oldLine = 0 and newLine = 0 —
both zero — which the GitLab client then rejects as invalid. -/
theorem claim_C7_counterexample :
    ctxC7.providerType = ProviderTypeGitLab ∧
    (postInlineIssues ctxC7 [⟨"f", "", 0, 0, "zz", "", "", "", ""⟩]).posts =
      [⟨"f", 0, 0, 0, ⟨1, "zz", "+"⟩⟩] ∧
    gitlabPositionLine 0 0 = none := by
  decide


def kindDiscipline (fl : diffPositionLines) : Prop :=
  (∀ p ∈ fl.Old, p.2.Kind = "-" ∨ p.2.Kind = " ") ∧
  (∀ p ∈ fl.New, p.2.Kind = "+" ∨ p.2.Kind = " ")

theorem registerFile_kind {m : List (String × diffPositionLines)} {cf : String}
    (h : ∀ e ∈ m, kindDiscipline e.2) :
    ∀ e ∈ registerFile m cf, kindDiscipline e.2 := by
  intro e he
  unfold registerFile at he
  split at he
  · split at he
    · exact h e he
    · rcases ainsert_mem he with h1 | h2
      · rw [h1]
        exact ⟨fun p hp => absurd hp (List.not_mem_nil p), fun p hp => absurd hp (List.not_mem_nil p)⟩
      · exact h e h2
  · exact h e he

theorem recordAdded_kind {s : ScanState} {line : String}
    (h : ∀ e ∈ s.lineMap, kindDiscipline e.2) :
    ∀ e ∈ (recordAdded s line).lineMap, kindDiscipline e.2 := by
  intro e he
  unfold recordAdded at he
  rcases updateFileLines_mem he with h1 | ⟨fl, hfl, hp⟩
  · exact h e h1
  · have hd := h (s.currentFile, fl) (alookup_mem hfl)
    rw [hp]
    refine ⟨hd.1, ?_⟩
    intro p hp'
    rcases ainsert_mem hp' with h2 | h3
    · rw [h2]
      exact Or.inl rfl
    · exact hd.2 p h3

theorem recordRemoved_kind {s : ScanState} {line : String}
    (h : ∀ e ∈ s.lineMap, kindDiscipline e.2) :
    ∀ e ∈ (recordRemoved s line).lineMap, kindDiscipline e.2 := by
  intro e he
  unfold recordRemoved at he
  rcases updateFileLines_mem he with h1 | ⟨fl, hfl, hp⟩
  · exact h e h1
  · have hd := h (s.currentFile, fl) (alookup_mem hfl)
    rw [hp]
    refine ⟨?_, hd.2⟩
    intro p hp'
    rcases ainsert_mem hp' with h2 | h3
    · rw [h2]
      exact Or.inl rfl
    · exact hd.1 p h3

theorem recordContext_kind {s : ScanState} {line : String}
    (h : ∀ e ∈ s.lineMap, kindDiscipline e.2) :
    ∀ e ∈ (recordContext s line).lineMap, kindDiscipline e.2 := by
  intro e he
  unfold recordContext at he
  rcases updateFileLines_mem he with h1 | ⟨fl, hfl, hp⟩
  · exact h e h1
  · have hd := h (s.currentFile, fl) (alookup_mem hfl)
    rw [hp]
    constructor
    · intro p hp'
      rcases ainsert_mem hp' with h2 | h3
      · rw [h2]
        exact Or.inr rfl
      · exact hd.1 p h3
    · intro p hp'
      rcases ainsert_mem hp' with h2 | h3
      · rw [h2]
        exact Or.inr rfl
      · exact hd.2 p h3

set_option maxHeartbeats 1000000 in
theorem scanLine_kind (s : ScanState) (line : String)
    (h : ∀ e ∈ s.lineMap, kindDiscipline e.2) :
    ∀ e ∈ (scanLine s line).lineMap, kindDiscipline e.2 := by
  unfold scanLine
  split
  · exact h
  · split
    · exact h
    · split
      · exact registerFile_kind h
      · split
        · exact h
        · split
          · exact h
          · split
            · exact h
            · split
              · exact h
              · split
                · exact h
                · split
                  · exact h
                  · split
                    · exact recordAdded_kind h
                    · split
                      · exact recordRemoved_kind h
                      · exact recordContext_kind h

theorem prefix_head_ne {l : List Char} {a b : Char} {as bs : List Char} (hab : a ≠ b)
    (h : List.isPrefixOf (a :: as) l = true) : List.isPrefixOf (b :: bs) l = false := by
  cases l with
  | nil => simp [List.isPrefixOf] at h
  | cons c t =>
    simp [List.isPrefixOf] at h ⊢
    intro hbc
    exact absurd (h.1.trans hbc.symm) hab

theorem goStartsWith_trans {l p q : String} (hpq : goStartsWith q p = true)
    (hlq : goStartsWith l q = true) : goStartsWith l p = true := by
  unfold goStartsWith at *
  rw [List.isPrefixOf_iff_prefix] at *
  exact hpq.trans hlq

theorem goStartsWith_mono {l p q : String} (hpq : goStartsWith q p = true)
    (h : goStartsWith l p = false) : goStartsWith l q = false := by
  cases hq : goStartsWith l q
  · rfl
  · rw [goStartsWith_trans hpq hq] at h
    cases h

theorem recordsAt_parts {s : ScanState} {line : String} (h : recordsAt s line = true) :
    goStartsWith line "diff --git " = false ∧ goStartsWith line "+++ " = false ∧
    s.inPatch = true ∧ ¬(s.currentFile = "") ∧ goStartsWith line "@@" = false ∧
    s.inHunk = true ∧ ¬(s.oldLine = 0 ∧ s.newLine = 0) ∧
    ¬(line = "\\ No newline at end of file") ∧ ¬(line = "") ∧
    (goStartsWith line "+" = true ∨ goStartsWith line "-" = true ∨
      goStartsWith line " " = true) := by
  simp only [recordsAt, Bool.and_eq_true, Bool.not_eq_true', Bool.or_eq_true,
    decide_eq_true_eq, ne_eq] at h
  obtain ⟨⟨⟨⟨⟨⟨⟨⟨⟨h1, h2⟩, h3⟩, h4⟩, h5⟩, h6⟩, h7⟩, h8⟩, h9⟩, h10⟩ := h
  refine ⟨h1, h2, h3, h4, h5, h6, ?_, h8, h9, ?_⟩
  · intro hc
    rw [hc.1, hc.2] at h7
    simp at h7
  · rcases h10 with (h | h) | h
    · exact Or.inl h
    · exact Or.inr (Or.inl h)
    · exact Or.inr (Or.inr h)

set_option maxHeartbeats 2000000 in
/-- Complete classification of one scan step: every line is handled by one
of the step helpers; a recorded line satisfies `recordsAt` and every other
line refutes it. -/
theorem scanLine_shape (s : ScanState) (line : String) :
    (recordsAt s line = false ∧
      (scanLine s line = fileHeaderReset s ∨
       scanLine s line = fileHeaderStep s line ∨
       scanLine s line = s ∨
       (goStartsWith line "@@" = true ∧ scanLine s line = hunkHeaderStep s line))) ∨
    (recordsAt s line = true ∧
      ((goStartsWith line "+" = true ∧ scanLine s line = recordAdded s line) ∨
       (goStartsWith line "+" = false ∧ goStartsWith line "-" = true ∧
         scanLine s line = recordRemoved s line) ∨
       (goStartsWith line "+" = false ∧ goStartsWith line "-" = false ∧
         goStartsWith line " " = true ∧ scanLine s line = recordContext s line))) := by
  unfold scanLine
  split
  · next c1 => exact Or.inl ⟨by simp [recordsAt, c1], Or.inl rfl⟩
  · split
    · next c2 =>
      have c2' : goStartsWith line "+++ " = true := by
        revert c2
        cases goStartsWith line "+++ " <;> simp
      exact Or.inl ⟨by simp [recordsAt, c2'], Or.inl rfl⟩
    · split
      · next c3 =>
        have c3' : goStartsWith line "+++ " = true :=
          goStartsWith_trans (by decide) c3
        exact Or.inl ⟨by simp [recordsAt, c3'], Or.inr (Or.inl rfl)⟩
      · split
        · next c4 =>
          refine Or.inl ⟨?_, Or.inr (Or.inr (Or.inl rfl))⟩
          rcases (by simpa using c4 : s.inPatch = false ∨ s.currentFile = "") with hc | hc <;>
            simp [recordsAt, hc]
        · split
          · next c5 => exact Or.inl ⟨by simp [recordsAt, c5], Or.inr (Or.inr (Or.inr ⟨c5, rfl⟩))⟩
          · split
            · next c6 =>
              refine Or.inl ⟨?_, Or.inr (Or.inr (Or.inl rfl))⟩
              rcases (by simpa using c6 :
                  s.inHunk = false ∨ (s.oldLine = 0 ∧ s.newLine = 0)) with hc | hc
              · simp [recordsAt, hc]
              · simp [recordsAt, hc.1, hc.2]
            · split
              · next c7 => exact Or.inl ⟨by simp [recordsAt, c7], Or.inr (Or.inr (Or.inl rfl))⟩
              · split
                · next c8 => exact Or.inl ⟨by simp [recordsAt, c8], Or.inr (Or.inr (Or.inl rfl))⟩
                · split
                  · next c9 =>
                    refine Or.inl ⟨?_, Or.inr (Or.inr (Or.inl rfl))⟩
                    have hc := (by simpa using c9 :
                      (goStartsWith line "+" = false ∧ goStartsWith line "-" = false) ∧
                        goStartsWith line " " = false)
                    simp [recordsAt, hc.1.1, hc.1.2, hc.2]
                  · rename_i c1 c2 c3 c4 c5 c6 c7 c8 c9
                    have e1 : goStartsWith line "diff --git " = false := by
                      revert c1
                      cases goStartsWith line "diff --git " <;> simp
                    have e3b : goStartsWith line "+++ b/" = false := by
                      revert c3
                      cases goStartsWith line "+++ b/" <;> simp
                    have e2 : goStartsWith line "+++ " = false := by
                      revert c2
                      rw [e3b]
                      cases goStartsWith line "+++ " <;> simp
                    have e4a : s.inPatch = true := by
                      revert c4
                      cases s.inPatch <;> simp
                    have e4b : ¬(s.currentFile = "") := by
                      intro hf
                      exact c4 (by simp [hf])
                    have e5 : goStartsWith line "@@" = false := by
                      revert c5
                      cases goStartsWith line "@@" <;> simp
                    have e6a : s.inHunk = true := by
                      revert c6
                      cases s.inHunk <;> simp
                    have e6b : (decide (s.oldLine = 0) && decide (s.newLine = 0)) = false := by
                      revert c6
                      cases hh : (decide (s.oldLine = 0) && decide (s.newLine = 0)) <;> simp
                    have hrec : recordsAt s line = true := by
                      simp only [recordsAt, Bool.and_eq_true, Bool.not_eq_true',
                        Bool.or_eq_true, decide_eq_true_eq, ne_eq]
                      refine ⟨⟨⟨⟨⟨⟨⟨⟨⟨e1, e2⟩, e4a⟩, e4b⟩, e5⟩, e6a⟩, ?_⟩, c7⟩, c8⟩, ?_⟩
                      · exact e6b
                      · revert c9
                        cases hp : goStartsWith line "+" <;>
                          cases hm : goStartsWith line "-" <;>
                          cases hs : goStartsWith line " " <;> simp
                    refine Or.inr ⟨hrec, ?_⟩
                    split
                    · next cp => exact Or.inl ⟨cp, rfl⟩
                    · next cp =>
                      have cp' : goStartsWith line "+" = false := by
                        revert cp
                        cases goStartsWith line "+" <;> simp
                      split
                      · next cm => exact Or.inr (Or.inl ⟨cp', cm, rfl⟩)
                      · next cm =>
                        have cm' : goStartsWith line "-" = false := by
                          revert cm
                          cases goStartsWith line "-" <;> simp
                        have cs : goStartsWith line " " = true := by
                          revert c9
                          rw [cp', cm']
                          cases goStartsWith line " " <;> simp
                        exact Or.inr (Or.inr ⟨cp', cm', cs, rfl⟩)

/-- Position counting: a recorded hunk-body line advances the position
counter by exactly one. -/
theorem scanLine_position_record (s : ScanState) (line : String)
    (hrec : recordsAt s line = true) :
    (scanLine s line).position = s.position + 1 := by
  rcases scanLine_shape s line with ⟨hf, _⟩ | ⟨_, hc⟩
  · rw [hrec] at hf
    cases hf
  · rcases hc with ⟨_, heq⟩ | ⟨_, _, heq⟩ | ⟨_, _, _, heq⟩ <;> rw [heq] <;> rfl

/-- Hunk headers never touch the position counter or the index. -/
theorem scanLine_hunkHeader (s : ScanState) (line : String)
    (hp : s.inPatch = true) (hf : s.currentFile ≠ "")
    (hh : goStartsWith line "@@" = true) :
    scanLine s line = hunkHeaderStep s line ∧
    (scanLine s line).position = s.position ∧
    (scanLine s line).lineMap = s.lineMap := by
  have hd : goStartsWith line "diff --git " = false := by
    unfold goStartsWith at hh ⊢
    exact prefix_head_ne (by decide) hh
  have hplus : goStartsWith line "+++ " = false := by
    unfold goStartsWith at hh ⊢
    exact prefix_head_ne (by decide) hh
  have hpb : goStartsWith line "+++ b/" = false :=
    goStartsWith_mono (by decide) hplus
  have heq : scanLine s line = hunkHeaderStep s line := by
    unfold scanLine
    simp [hd, hplus, hpb, hp, hf, hh]
  exact ⟨heq, by rw [heq]; rfl, by rw [heq]; rfl⟩

/-! ### Context-pairing invariant -/

/-- The data-model invariant for one file index: a Context line occupies
the same position (with the same content) in both maps; Added lines exist
only in newLines and Removed lines only in oldLines (`kindDiscipline`). -/
def ctxPaired (fl : diffPositionLines) : Prop :=
  (∀ p ∈ fl.Old, p.2.Kind = " " →
    ∃ q ∈ fl.New, q.2.Position = p.2.Position ∧ q.2.Content = p.2.Content ∧
      q.2.Kind = " ") ∧
  (∀ q ∈ fl.New, q.2.Kind = " " →
    ∃ p ∈ fl.Old, p.2.Position = q.2.Position ∧ p.2.Content = q.2.Content ∧
      p.2.Kind = " ")

theorem ainsert_self_mem {α β : Type} [DecidableEq α] (m : List (α × β)) (k : α)
    (v : β) : (k, v) ∈ ainsert m k v := by
  induction m with
  | nil => exact List.mem_singleton.mpr rfl
  | cons e rest ih =>
    obtain ⟨k', v'⟩ := e
    rw [ainsert]
    by_cases hk : k' = k
    · rw [if_pos hk]
      exact List.mem_cons_self _ _
    · rw [if_neg hk]
      exact List.mem_cons_of_mem _ ih

theorem registerFile_pres (P : diffPositionLines → Prop) (hP : P ⟨[], []⟩)
    {m : List (String × diffPositionLines)} {cf : String}
    (h : ∀ e ∈ m, P e.2) : ∀ e ∈ registerFile m cf, P e.2 := by
  intro e he
  unfold registerFile at he
  split at he
  · split at he
    · exact h e he
    · rcases ainsert_mem he with h1 | h2
      · rw [h1]
        exact hP
      · exact h e h2
  · exact h e he

theorem recordAdded_paired {s : ScanState} {line : String}
    (h : ∀ e ∈ s.lineMap, ctxPaired e.2)
    (hfr : ∀ fl, alookup s.lineMap s.currentFile = some fl →
      akey fl.New s.newLine = false) :
    ∀ e ∈ (recordAdded s line).lineMap, ctxPaired e.2 := by
  intro e he
  unfold recordAdded at he
  rcases updateFileLines_mem he with h1 | ⟨fl, hfl, hp⟩
  · exact h e h1
  · have hd := h _ (alookup_mem hfl)
    have hfr' := hfr fl hfl
    rw [hp]
    constructor
    · intro p hpo hk
      obtain ⟨q, hq, hqp⟩ := hd.1 p hpo hk
      exact ⟨q, ainsert_fresh_mem hfr' hq, hqp⟩
    · intro q hq hk
      rcases ainsert_mem hq with h2 | h3
      · rw [h2] at hk
        simp at hk
      · exact hd.2 q h3 hk

theorem recordRemoved_paired {s : ScanState} {line : String}
    (h : ∀ e ∈ s.lineMap, ctxPaired e.2)
    (hfr : ∀ fl, alookup s.lineMap s.currentFile = some fl →
      akey fl.Old s.oldLine = false) :
    ∀ e ∈ (recordRemoved s line).lineMap, ctxPaired e.2 := by
  intro e he
  unfold recordRemoved at he
  rcases updateFileLines_mem he with h1 | ⟨fl, hfl, hp⟩
  · exact h e h1
  · have hd := h _ (alookup_mem hfl)
    have hfr' := hfr fl hfl
    rw [hp]
    constructor
    · intro p hpo hk
      rcases ainsert_mem hpo with h2 | h3
      · rw [h2] at hk
        simp at hk
      · exact hd.1 p h3 hk
    · intro q hq hk
      obtain ⟨p, hpo, hpp⟩ := hd.2 q hq hk
      exact ⟨p, ainsert_fresh_mem hfr' hpo, hpp⟩

theorem recordContext_paired {s : ScanState} {line : String}
    (h : ∀ e ∈ s.lineMap, ctxPaired e.2)
    (hfrO : ∀ fl, alookup s.lineMap s.currentFile = some fl →
      akey fl.Old s.oldLine = false)
    (hfrN : ∀ fl, alookup s.lineMap s.currentFile = some fl →
      akey fl.New s.newLine = false) :
    ∀ e ∈ (recordContext s line).lineMap, ctxPaired e.2 := by
  intro e he
  unfold recordContext at he
  rcases updateFileLines_mem he with h1 | ⟨fl, hfl, hp⟩
  · exact h e h1
  · have hd := h _ (alookup_mem hfl)
    have hfrO' := hfrO fl hfl
    have hfrN' := hfrN fl hfl
    rw [hp]
    constructor
    · intro p hpo hk
      rcases ainsert_mem hpo with h2 | h3
      · refine ⟨(s.newLine, ⟨s.position + 1, goTrimLeading line " ", " "⟩),
          ainsert_self_mem _ _ _, ?_⟩
        rw [h2]
        exact ⟨rfl, rfl, rfl⟩
      · obtain ⟨q, hq, hqp⟩ := hd.1 p h3 hk
        exact ⟨q, ainsert_fresh_mem hfrN' hq, hqp⟩
    · intro q hq hk
      rcases ainsert_mem hq with h2 | h3
      · refine ⟨(s.oldLine, ⟨s.position + 1, goTrimLeading line " ", " "⟩),
          ainsert_self_mem _ _ _, ?_⟩
        rw [h2]
        exact ⟨rfl, rfl, rfl⟩
      · obtain ⟨p, hpo, hpp⟩ := hd.2 q h3 hk
        exact ⟨p, ainsert_fresh_mem hfrO' hpo, hpp⟩

theorem scanLine_paired (s : ScanState) (line : String)
    (h : ∀ e ∈ s.lineMap, ctxPaired e.2)
    (hov : stepOverwrites s line = false) :
    ∀ e ∈ (scanLine s line).lineMap, ctxPaired e.2 := by
  rcases scanLine_shape s line with ⟨_, hc⟩ | ⟨hrec, hc⟩
  · rcases hc with heq | heq | heq | ⟨_, heq⟩ <;> rw [heq]
    · exact h
    · exact registerFile_pres ctxPaired
        ⟨fun p hp => (List.not_mem_nil p hp).elim, fun q hq => (List.not_mem_nil q hq).elim⟩ h
    · exact h
    · exact h
  · rw [stepOverwrites, if_pos hrec] at hov
    rcases hc with ⟨hplus, heq⟩ | ⟨hplus, hminus, heq⟩ | ⟨hplus, hminus, _, heq⟩ <;> rw [heq]
    · rw [if_pos hplus] at hov
      refine recordAdded_paired h ?_
      intro fl hfl
      rw [hfl] at hov
      exact hov
    · rw [if_neg (by simp [hplus]), if_pos hminus] at hov
      refine recordRemoved_paired h ?_
      intro fl hfl
      rw [hfl] at hov
      exact hov
    · rw [if_neg (by simp [hplus]), if_neg (by simp [hminus])] at hov
      have hov2 := (by simpa using hov :
        akey ((alookup s.lineMap s.currentFile).getD ⟨[], []⟩).Old s.oldLine = false ∧
        akey ((alookup s.lineMap s.currentFile).getD ⟨[], []⟩).New s.newLine = false)
      refine recordContext_paired h ?_ ?_
      · intro fl hfl
        rw [hfl] at hov2
        exact hov2.1
      · intro fl hfl
        rw [hfl] at hov2
        exact hov2.2

/-! ### Fold-level invariants of the indexer -/

theorem scanFold_kind (ls : List String) (s : ScanState)
    (h : ∀ e ∈ s.lineMap, kindDiscipline e.2) :
    ∀ e ∈ (ls.foldl scanLine s).lineMap, kindDiscipline e.2 := by
  induction ls generalizing s with
  | nil => exact h
  | cons l rest ih =>
    rw [List.foldl_cons]
    exact ih (scanLine s l) (scanLine_kind s l h)

theorem buildDiffPositionMap_kind (d : String) :
    ∀ e ∈ buildDiffPositionMap d, kindDiscipline e.2 :=
  scanFold_kind (goSplitChar d '\n') initScanState (fun e he => absurd he (List.not_mem_nil e))

theorem scanPairFlag_mono (ls : List String) (s : ScanState) :
    (ls.foldl (fun p l => (scanLine p.1 l, p.2 || stepOverwrites p.1 l)) (s, true)).2 = true := by
  induction ls generalizing s with
  | nil => rfl
  | cons l rest ih =>
    rw [List.foldl_cons, Bool.true_or]
    exact ih (scanLine s l)

theorem scanFold_paired (ls : List String) (s : ScanState) (b : Bool)
    (h : ∀ e ∈ s.lineMap, ctxPaired e.2)
    (hflag : (ls.foldl (fun p l => (scanLine p.1 l, p.2 || stepOverwrites p.1 l)) (s, b)).2 = false) :
    ∀ e ∈ (ls.foldl scanLine s).lineMap, ctxPaired e.2 := by
  induction ls generalizing s b with
  | nil => exact h
  | cons l rest ih =>
    rw [List.foldl_cons] at hflag ⊢
    have hso : stepOverwrites s l = false := by
      cases hcon : stepOverwrites s l
      · rfl
      · rw [hcon, Bool.or_true] at hflag
        rw [scanPairFlag_mono rest (scanLine s l)] at hflag
        cases hflag
    exact ih (scanLine s l) (b || stepOverwrites s l) (scanLine_paired s l h hso) hflag

theorem buildDiffPositionMap_paired (d : String) (hnov : NoOverwrite d = true) :
    ∀ e ∈ buildDiffPositionMap d, ctxPaired e.2 := by
  have hflag : ((goSplitChar d '\n').foldl
      (fun p l => (scanLine p.1 l, p.2 || stepOverwrites p.1 l))
      (initScanState, false)).2 = false := by
    unfold NoOverwrite at hnov
    cases hc : ((goSplitChar d '\n').foldl
        (fun p l => (scanLine p.1 l, p.2 || stepOverwrites p.1 l))
        (initScanState, false)).2
    · rfl
    · rw [hc] at hnov
      cases hnov
  exact scanFold_paired (goSplitChar d '\n') initScanState false
    (fun e he => absurd he (List.not_mem_nil e)) hflag

/-! ### Skip behaviour and degradation (claim C9) -/

theorem not_marker_heads {line : String}
    (h4 : ∀ d, line.data.head? = some d → ¬(d = '+' ∨ d = '-' ∨ d = ' ')) :
    goStartsWith line "+" = false ∧ goStartsWith line "-" = false ∧
      goStartsWith line " " = false := by
  unfold goStartsWith
  cases hd : line.data with
  | nil => exact ⟨by decide, by decide, by decide⟩
  | cons d t =>
    have hd' := h4 d (by rw [hd]; rfl)
    have n1 : ¬('+' = d) := fun hh => hd' (Or.inl hh.symm)
    have n2 : ¬('-' = d) := fun hh => hd' (Or.inr (Or.inl hh.symm))
    have n3 : ¬(' ' = d) := fun hh => hd' (Or.inr (Or.inr hh.symm))
    refine ⟨?_, ?_, ?_⟩
    · show List.isPrefixOf ['+'] (d :: t) = false
      simp [List.isPrefixOf, n1]
    · show List.isPrefixOf ['-'] (d :: t) = false
      simp [List.isPrefixOf, n2]
    · show List.isPrefixOf [' '] (d :: t) = false
      simp [List.isPrefixOf, n3]

/-- Claim C9 part 1: a line that is no header and carries none of the
three body markers leaves the scan state entirely unchanged. -/
theorem scanLine_skipLine (s : ScanState) (line : String)
    (h1 : goStartsWith line "diff --git " = false)
    (h2 : goStartsWith line "+++ " = false)
    (h3 : goStartsWith line "@@" = false)
    (h4 : ∀ d, line.data.head? = some d → ¬(d = '+' ∨ d = '-' ∨ d = ' ')) :
    scanLine s line = s := by
  have h2b : goStartsWith line "+++ b/" = false := goStartsWith_mono (by decide) h2
  have hm := not_marker_heads h4
  unfold scanLine
  simp [h1, h2, h2b, h3, hm.1, hm.2.1, hm.2.2]

theorem alookup_registerFile_self (m : List (String × diffPositionLines))
    (cf : String) (h : ¬(cf = "")) :
    (alookup (registerFile m cf) cf).isSome = true := by
  unfold registerFile
  rw [if_pos h]
  cases hl : alookup m cf with
  | some v =>
    rw [hl]
    rfl
  | none =>
    show (alookup (ainsert m cf ⟨[], []⟩) cf).isSome = true
    rw [alookup_ainsert_self]
    rfl

/-- While scanning, the current file (when one is active) is always
registered in the map, so the nested map writes of the Go code never hit a
nil map. -/
def scanReg (s : ScanState) : Prop :=
  s.inPatch = true → ¬(s.currentFile = "") → (alookup s.lineMap s.currentFile).isSome = true

theorem scanLine_reg (s : ScanState) (line : String) (h : scanReg s) :
    scanReg (scanLine s line) := by
  rcases scanLine_shape s line with ⟨_, hc⟩ | ⟨_, hc⟩
  · rcases hc with heq | heq | heq | ⟨_, heq⟩ <;> rw [heq]
    · intro hp
      cases hp
    · intro _ hcf
      exact alookup_registerFile_self s.lineMap _ hcf
    · exact h
    · exact h
  · rcases hc with ⟨_, heq⟩ | ⟨_, _, heq⟩ | ⟨_, _, _, heq⟩
    · rw [heq]
      intro hp hcf
      simp only [recordAdded]
      rw [alookup_updateFileLines_isSome]
      exact h hp hcf
    · rw [heq]
      intro hp hcf
      simp only [recordRemoved]
      rw [alookup_updateFileLines_isSome]
      exact h hp hcf
    · rw [heq]
      intro hp hcf
      simp only [recordContext]
      rw [alookup_updateFileLines_isSome]
      exact h hp hcf

theorem scanFold_reg (ls : List String) (s : ScanState) (h : scanReg s) :
    scanReg (ls.foldl scanLine s) := by
  induction ls generalizing s with
  | nil => exact h
  | cons l rest ih =>
    rw [List.foldl_cons]
    exact ih (scanLine s l) (scanLine_reg s l h)

theorem scanLine_garbled (s : ScanState) (line : String)
    (hl : goStartsWith line "@@" = true →
      parseOldHunkStart line = 0 ∧ parseNewHunkStart line = 0)
    (hs : s.oldLine = 0 ∧ s.newLine = 0 ∧ ∀ e ∈ s.lineMap, e.2.Old = [] ∧ e.2.New = []) :
    (scanLine s line).oldLine = 0 ∧ (scanLine s line).newLine = 0 ∧
      ∀ e ∈ (scanLine s line).lineMap, e.2.Old = [] ∧ e.2.New = [] := by
  rcases scanLine_shape s line with ⟨_, hc⟩ | ⟨hrec, _⟩
  · rcases hc with heq | heq | heq | ⟨hat, heq⟩ <;> rw [heq]
    · exact ⟨rfl, rfl, hs.2.2⟩
    · refine ⟨rfl, rfl, ?_⟩
      show ∀ e ∈ registerFile s.lineMap (goTrimSpace (goTrimLeading line "+++ b/")),
        e.2.Old = [] ∧ e.2.New = []
      exact registerFile_pres (fun fl => fl.Old = [] ∧ fl.New = []) ⟨rfl, rfl⟩ hs.2.2
    · exact hs
    · exact ⟨(hl hat).1, (hl hat).2, hs.2.2⟩
  · exact absurd ⟨hs.1, hs.2.1⟩ (recordsAt_parts hrec).2.2.2.2.2.2.1

theorem scanFold_garbled (ls : List String) :
    ∀ (s : ScanState),
      (∀ l ∈ ls, goStartsWith l "@@" = true →
        parseOldHunkStart l = 0 ∧ parseNewHunkStart l = 0) →
      (s.oldLine = 0 ∧ s.newLine = 0 ∧ ∀ e ∈ s.lineMap, e.2.Old = [] ∧ e.2.New = []) →
      ∀ e ∈ (ls.foldl scanLine s).lineMap, e.2.Old = [] ∧ e.2.New = [] := by
  induction ls with
  | nil =>
    intro s hl hs
    exact hs.2.2
  | cons l rest ih =>
    intro s hl hs
    rw [List.foldl_cons]
    exact ih (scanLine s l) (fun l' hl' => hl l' (List.mem_cons_of_mem _ hl'))
      (scanLine_garbled s l (hl l (List.mem_cons_self _ _)) hs)

/-- Claim C5: position values advance by exactly 1 per recorded hunk-body
line and are never reset by a hunk header (continuity across hunks); every
index entry respects the kind discipline (Added only in newLines, Removed
only in oldLines); and for overwrite-free diffs (all valid diffs: their
hunks cover disjoint increasing ranges) every Context line occupies the
same position, with the same content, in both maps. -/
theorem claim_C5 (s : ScanState) (line : String) (d : String) :
    (recordsAt s line = true → (scanLine s line).position = s.position + 1) ∧
    (s.inPatch = true → ¬(s.currentFile = "") → goStartsWith line "@@" = true →
      (scanLine s line).position = s.position ∧ (scanLine s line).lineMap = s.lineMap) ∧
    (∀ e ∈ buildDiffPositionMap d, kindDiscipline e.2) ∧
    (NoOverwrite d = true → ∀ e ∈ buildDiffPositionMap d, ctxPaired e.2) := by
  refine ⟨scanLine_position_record s line, ?_, buildDiffPositionMap_kind d,
    buildDiffPositionMap_paired d⟩
  intro hp hf hh
  exact (scanLine_hunkHeader s line hp hf hh).2

def sRecW : ScanState :=
  { lineMap := [("f", ⟨[], []⟩)], currentFile := "f", oldLine := 1, newLine := 1,
    inPatch := true, inHunk := true, position := 0 }

def sampleDiffC5 : String :=
  "diff --git a/f b/f\n--- a/f\n+++ b/f\n@@ -10,3 +10,4 @@\n context\n-old line\n+new line\n+added line2\n context2"

def flC5 : diffPositionLines :=
  { Old := [(10, ⟨1, "context", " "⟩), (11, ⟨2, "old line", "-"⟩),
            (12, ⟨5, "context2", " "⟩)],
    New := [(10, ⟨1, "context", " "⟩), (11, ⟨3, "new line", "+"⟩),
            (12, ⟨4, "added line2", "+"⟩), (13, ⟨5, "context2", " "⟩)] }

/-- Witness for claim C5 at concrete inputs: a recorded added line advances
the position, a hunk header leaves position and index alone, and the
sample diff's index is kind-disciplined and context-paired. -/
theorem claim_C5_witness :
    (scanLine sRecW "+x").position = sRecW.position + 1 ∧
    ((scanLine sRecW "@@ -1,2 +3,4 @@").position = sRecW.position ∧
      (scanLine sRecW "@@ -1,2 +3,4 @@").lineMap = sRecW.lineMap) ∧
    kindDiscipline flC5 ∧
    ctxPaired flC5 :=
  ⟨(claim_C5 sRecW "+x" sampleDiffC5).1 (by decide),
   (claim_C5 sRecW "@@ -1,2 +3,4 @@" sampleDiffC5).2.1 rfl (by decide) (by decide),
   (claim_C5 sRecW "+x" sampleDiffC5).2.2.1 ("f", flC5) (by decide),
   (claim_C5 sRecW "+x" sampleDiffC5).2.2.2 (by decide) ("f", flC5) (by decide)⟩

/-- The successive scan states paired with the line each processes: the
state's currentFile names the file section the line belongs to, so the
trace makes "a hunk header inside this file's section" expressible. -/
def scanTrace (ls : List String) (s : ScanState) : List (ScanState × String) :=
  match ls with
  | [] => []
  | l :: rest => (s, l) :: scanTrace rest (scanLine s l)

theorem alookup_ainsert_ne {α β : Type} [DecidableEq α] (m : List (α × β)) (k k' : α)
    (v : β) (h : ¬(k = k')) : alookup (ainsert m k v) k' = alookup m k' := by
  induction m with
  | nil => simp [ainsert, alookup, h]
  | cons e rest ih =>
    obtain ⟨ke, ve⟩ := e
    rw [ainsert]
    by_cases hk : ke = k
    · rw [if_pos hk, alookup, alookup, hk, if_neg h, if_neg h]
    · rw [if_neg hk, alookup, alookup]
      by_cases hke : ke = k'
      · rw [if_pos hke, if_pos hke]
      · rw [if_neg hke, if_neg hke]
        exact ih

theorem alookup_updateFileLines_ne (m : List (String × diffPositionLines))
    (file k : String) (g : diffPositionLines → diffPositionLines)
    (h : ¬(file = k)) :
    alookup (updateFileLines m file g) k = alookup m k := by
  induction m with
  | nil => rw [updateFileLines]
  | cons e rest ih =>
    obtain ⟨ke, ve⟩ := e
    rw [updateFileLines]
    by_cases hk : ke = file
    · have hke : ¬(ke = k) := by
        rw [hk]
        exact h
      rw [if_pos hk, alookup, alookup, if_neg hke, if_neg hke]
    · rw [if_neg hk, alookup, alookup]
      by_cases hke : ke = k
      · rw [if_pos hke, if_pos hke]
      · rw [if_neg hke, if_neg hke]
        exact ih

theorem alookup_registerFile (m : List (String × diffPositionLines)) (cf f : String) :
    alookup (registerFile m cf) f = alookup m f ∨
    alookup (registerFile m cf) f = some ⟨[], []⟩ := by
  unfold registerFile
  split
  · cases hl : alookup m cf with
    | some v => exact Or.inl rfl
    | none =>
      by_cases hf : cf = f
      · refine Or.inr ?_
        show alookup (ainsert m cf ⟨[], []⟩) f = some ⟨[], []⟩
        rw [← hf, alookup_ainsert_self]
      · refine Or.inl ?_
        show alookup (ainsert m cf ⟨[], []⟩) f = alookup m f
        exact alookup_ainsert_ne m cf f _ hf
  · exact Or.inl rfl

/-- One scan step preserves, for a fixed file `f`, the pair of invariants
"inside f's section with a hunk open, both counters are zero" and "f's
registered index is empty", provided any hunk header scanned inside f's
section parses to zero starts. -/
theorem scanLine_garbledFile (f : String) (s : ScanState) (l : String)
    (hll : s.currentFile = f → goStartsWith l "@@" = true →
      parseOldHunkStart l = 0 ∧ parseNewHunkStart l = 0)
    (h2 : s.currentFile = f → s.inHunk = true → s.oldLine = 0 ∧ s.newLine = 0)
    (h3 : ∀ fl, alookup s.lineMap f = some fl → fl.Old = [] ∧ fl.New = []) :
    ((scanLine s l).currentFile = f → (scanLine s l).inHunk = true →
      (scanLine s l).oldLine = 0 ∧ (scanLine s l).newLine = 0) ∧
    (∀ fl, alookup (scanLine s l).lineMap f = some fl →
      fl.Old = [] ∧ fl.New = []) := by
  rcases scanLine_shape s l with ⟨_, hc⟩ | ⟨hrec, hc⟩
  · rcases hc with heq | heq | heq | ⟨hat, heq⟩ <;> rw [heq]
    · constructor
      · intro _ hih
        simp [fileHeaderReset] at hih
      · exact h3
    · constructor
      · intro _ hih
        simp [fileHeaderStep] at hih
      · intro fl hfl
        simp only [fileHeaderStep] at hfl
        rcases alookup_registerFile s.lineMap (goTrimSpace (goTrimLeading l "+++ b/")) f
            with hr | hr
        · rw [hr] at hfl
          exact h3 fl hfl
        · rw [hr] at hfl
          cases Option.some.inj hfl
          exact ⟨rfl, rfl⟩
    · exact ⟨h2, h3⟩
    · constructor
      · intro hcf _
        exact hll hcf hat
      · exact h3
  · have e6a := (recordsAt_parts hrec).2.2.2.2.2.1
    have e7 := (recordsAt_parts hrec).2.2.2.2.2.2.1
    rcases hc with ⟨_, heq⟩ | ⟨_, _, heq⟩ | ⟨_, _, _, heq⟩ <;> rw [heq]
    · constructor
      · intro hcf _
        exact absurd (h2 hcf e6a) e7
      · intro fl hfl
        by_cases hcff : s.currentFile = f
        · exact absurd (h2 hcff e6a) e7
        · simp only [recordAdded] at hfl
          rw [alookup_updateFileLines_ne s.lineMap s.currentFile f _ hcff] at hfl
          exact h3 fl hfl
    · constructor
      · intro hcf _
        exact absurd (h2 hcf e6a) e7
      · intro fl hfl
        by_cases hcff : s.currentFile = f
        · exact absurd (h2 hcff e6a) e7
        · simp only [recordRemoved] at hfl
          rw [alookup_updateFileLines_ne s.lineMap s.currentFile f _ hcff] at hfl
          exact h3 fl hfl
    · constructor
      · intro hcf _
        exact absurd (h2 hcf e6a) e7
      · intro fl hfl
        by_cases hcff : s.currentFile = f
        · exact absurd (h2 hcff e6a) e7
        · simp only [recordContext] at hfl
          rw [alookup_updateFileLines_ne s.lineMap s.currentFile f _ hcff] at hfl
          exact h3 fl hfl

theorem scanFold_garbledFile (f : String) (ls : List String) :
    ∀ (s : ScanState),
      (∀ p ∈ scanTrace ls s, p.1.currentFile = f → goStartsWith p.2 "@@" = true →
        parseOldHunkStart p.2 = 0 ∧ parseNewHunkStart p.2 = 0) →
      (s.currentFile = f → s.inHunk = true → s.oldLine = 0 ∧ s.newLine = 0) →
      (∀ fl, alookup s.lineMap f = some fl → fl.Old = [] ∧ fl.New = []) →
      ∀ fl, alookup ((ls.foldl scanLine s)).lineMap f = some fl →
        fl.Old = [] ∧ fl.New = [] := by
  induction ls with
  | nil =>
    intro s _ _ h3
    exact h3
  | cons l rest ih =>
    intro s hl h2 h3
    rw [List.foldl_cons]
    have hstep := scanLine_garbledFile f s l
      (fun hcf hat => hl (s, l) (List.mem_cons_self _ _) hcf hat) h2 h3
    exact ih (scanLine s l)
      (fun p hp => hl p (List.mem_cons_of_mem _ hp)) hstep.1 hstep.2

/-- Claim C9: the indexer is total and degrades gracefully — a line that
matches no header and none of the three body markers (this covers the
no-trailing-newline marker and empty lines) is skipped with the state,
counters and index untouched; per file, if every hunk header scanned
inside that file's section fails to parse (declared starts 0), that file's
index stays empty — other files of the same diff may index normally; and
whenever a current file is active its index is registered, so the nested
Go map write never hits a nil map.  Totality itself holds by construction:
every function of the embedding is total. -/
theorem claim_C9 (s : ScanState) (line : String) (d : String) (ls : List String) :
    (goStartsWith line "diff --git " = false → goStartsWith line "+++ " = false →
      goStartsWith line "@@" = false →
      (∀ c, line.data.head? = some c → ¬(c = '+' ∨ c = '-' ∨ c = ' ')) →
      scanLine s line = s) ∧
    (∀ f : String,
      (∀ p ∈ scanTrace (goSplitChar d '\n') initScanState,
        p.1.currentFile = f → goStartsWith p.2 "@@" = true →
        parseOldHunkStart p.2 = 0 ∧ parseNewHunkStart p.2 = 0) →
      ∀ fl, alookup (buildDiffPositionMap d) f = some fl →
        fl.Old = [] ∧ fl.New = []) ∧
    ((ls.foldl scanLine initScanState).inPatch = true →
      ¬((ls.foldl scanLine initScanState).currentFile = "") →
      (alookup (ls.foldl scanLine initScanState).lineMap
        (ls.foldl scanLine initScanState).currentFile).isSome = true) := by
  refine ⟨scanLine_skipLine s line, ?_, ?_⟩
  · intro f hf
    exact scanFold_garbledFile f (goSplitChar d '\n') initScanState hf
      (fun _ hih => Bool.noConfusion hih)
      (fun fl hfl => by simp [alookup] at hfl)
  · exact scanFold_reg ls initScanState (fun hp _ => Bool.noConfusion hp)

def mixedDiffC9 : String :=
  "diff --git a/g b/g\n--- a/g\n+++ b/g\n@@ garbled @@\n+zz\ndiff --git a/f b/f\n--- a/f\n+++ b/f\n@@ -1,0 +1,1 @@\n+ok"

/-- Witness for claim C9 at concrete inputs: a junk line and the
no-trailing-newline marker are skipped; in a mixed diff whose file g has
only a garbled hunk header while file f has a valid one, g's index is
empty (f's is populated, as the separately decidable hypothesis set
allows); and after a file header the file is registered. -/
theorem claim_C9_witness :
    scanLine sRecW "junk" = sRecW ∧
    scanLine sRecW "\\ No newline at end of file" = sRecW ∧
    (((⟨[], []⟩ : diffPositionLines).Old = [] ∧
      (⟨[], []⟩ : diffPositionLines).New = []) ∧
     (alookup (["+++ b/f"].foldl scanLine initScanState).lineMap
       (["+++ b/f"].foldl scanLine initScanState).currentFile).isSome = true) :=
  ⟨(claim_C9 sRecW "junk" "" []).1 (by decide) (by decide) (by decide)
    (by intro c hc; cases hc; decide),
   (claim_C9 sRecW "\\ No newline at end of file" "" []).1 (by decide) (by decide)
    (by decide) (by intro c hc; cases hc; decide),
   (claim_C9 sRecW "junk" mixedDiffC9 []).2.1 "g" (by decide) ⟨[], []⟩ (by decide),
   (claim_C9 sRecW "junk" "" ["+++ b/f"]).2.2 (by decide) (by decide)⟩

/-- Claim C10: the fallback table's line column always renders the issue's
NewLine field — as its digit string when positive, as "-" otherwise — and
the OldLine field never influences the rendered table. -/
theorem claim_C10 (issues : List reviewIssue) (issue : reviewIssue) (o v : Int) :
    (issueRow { issue with OldLine := o } = issueRow issue) ∧
    (buildUnmatchedIssuesTable (issues.map (fun i => { i with OldLine := o })) =
      buildUnmatchedIssuesTable issues) ∧
    (0 < v → formatLineValue v = toString v) ∧
    (v ≤ 0 → formatLineValue v = "-") ∧
    (0 < issue.NewLine → issueRow issue =
      "| " ++ escapeTable issue.File ++ ":" ++ toString issue.NewLine ++ " | " ++
      escapeTable issue.Code ++ " | " ++ escapeTable issue.Severity ++ " | " ++
      escapeTable issue.Category ++ " | " ++ escapeTable issue.Problem ++ " | " ++
      escapeTable issue.Suggestion ++ " |\n") ∧
    (issue.NewLine ≤ 0 → issueRow issue =
      "| " ++ escapeTable issue.File ++ ":" ++ "-" ++ " | " ++
      escapeTable issue.Code ++ " | " ++ escapeTable issue.Severity ++ " | " ++
      escapeTable issue.Category ++ " | " ++ escapeTable issue.Problem ++ " | " ++
      escapeTable issue.Suggestion ++ " |\n") := by
  refine ⟨rfl, ?_, ?_, ?_, ?_, ?_⟩
  · unfold buildUnmatchedIssuesTable
    rw [List.length_map, List.map_map]
    rfl
  · intro hv
    unfold formatLineValue
    rw [if_neg (by omega)]
  · intro hv
    unfold formatLineValue
    rw [if_pos hv]
  · intro hv
    unfold issueRow formatLineValue
    rw [if_neg (by omega)]
  · intro hv
    unfold issueRow formatLineValue
    rw [if_pos hv]

def issueW10 : reviewIssue := ⟨"f", "", 3, 7, "c", "s", "k", "p", "g"⟩

/-- Witness for claim C10 at a concrete issue: changing OldLine leaves the
row unchanged, and both renderings of the line column are as stated. -/
theorem claim_C10_witness :
    (issueRow { issueW10 with OldLine := 99 } = issueRow issueW10) ∧
    formatLineValue 7 = toString (7 : Int) ∧
    formatLineValue (-2) = "-" ∧
    issueRow issueW10 =
      "| " ++ escapeTable issueW10.File ++ ":" ++ toString issueW10.NewLine ++ " | " ++
      escapeTable issueW10.Code ++ " | " ++ escapeTable issueW10.Severity ++ " | " ++
      escapeTable issueW10.Category ++ " | " ++ escapeTable issueW10.Problem ++ " | " ++
      escapeTable issueW10.Suggestion ++ " |\n" :=
  ⟨(claim_C10 [] issueW10 99 7).1,
   (claim_C10 [] issueW10 99 7).2.2.1 (by decide),
   (claim_C10 [] issueW10 99 (-2)).2.2.2.1 (by decide),
   (claim_C10 [] issueW10 99 7).2.2.2.2.1 (by decide)⟩

end PrReview
